import Mathlib

/-!
Verification development for the cc-switch frontend.

The TypeScript sources are shallowly embedded: JavaScript strings are
modelled as `List Char`, JS objects as association lists, fallible
external calls (such as `atob` or `JSON.parse`) as `Option`-valued
parameters, and `undefined`-able fields as `Option`.
-/

namespace CCSwitch

/-- Whitespace predicate used by the embedding of the JavaScript
string `trim` method (ASCII whitespace characters). -/
def isWs (c : Char) : Bool :=
  c == ' ' || c == '\t' || c == '\n' || c == '\r' || c == '\x0b' || c == '\x0c'

/-- Embedding of the JavaScript `String.prototype.trim`: drop whitespace
from both ends of the character list. -/
def trimList (l : List Char) : List Char :=
  ((l.dropWhile isWs).reverse.dropWhile isWs).reverse

/-! ## UsageScriptModal.validateAndClampInterval

Source: `src/components/UsageScriptModal.tsx`, `validateAndClampInterval`.
The input string is represented by the result of `Number(value)`
(`none` models `NaN`) together with the boolean outcome of the
`value.trim() === ""` test; the numeric value itself is modelled as a
rational. The `toast` calls only emit UI warnings and do not affect the
returned value, so they are not part of the embedding. -/

def validateAndClampInterval (parsedNum : Option ℚ) (trimIsEmpty : Bool) : ℤ :=
  match parsedNum with
  | none => 0
  | some num =>
    if trimIsEmpty then 0
    else if num < 0 then 0
    else max 0 (min 1440 ⌊num⌋)

/-! ## lib/utils/base64.decodeBase64Utf8

Source: `src/lib/utils/base64.ts`.  The external browser primitives are
parameters of the embedding: `atobFn` models `atob` (returning the
decoded byte sequence, or `none` when `atob` throws), `utf8Decode`
models the non-fatal `TextDecoder` pipeline (total: it never throws),
and `legacyDecode` models `s => decodeURIComponent(escape(s))` applied
to the binary string (`none` when it throws). -/

def replaceSpacesWithPlus (l : List Char) : List Char :=
  l.map (fun c => if c == ' ' then '+' else c)

/-- Cleaned input of the first decode attempt: trim, then replace each
space with a plus sign. -/
def cleanedInput (str : List Char) : List Char :=
  replaceSpacesWithPlus (trimList str)

/-- Padded variant of the cleaned input used by the second decode
attempt: when the length is not a multiple of 4, append the missing
padding characters. -/
def paddedCleaned (str : List Char) : List Char :=
  if (cleanedInput str).length % 4 ≠ 0 then
    cleanedInput str ++ List.replicate (4 - (cleanedInput str).length % 4) '='
  else cleanedInput str

def decodeBase64Utf8 (atobFn : List Char → Option (List Nat))
    (utf8Decode : List Nat → List Char)
    (legacyDecode : List Nat → Option (List Char))
    (str : List Char) : List Char :=
  match atobFn (cleanedInput str) with
  | some bytes => utf8Decode bytes
  | none =>
    match atobFn (paddedCleaned str) with
    | some bytes => utf8Decode bytes
    | none =>
      match atobFn (replaceSpacesWithPlus str) with
      | some bytes =>
        match legacyDecode bytes with
        | some s => s
        | none => str
      | none => str

/-! ## useGeminiConfigState: envObjToString / envStringToObj

Source: `src/components/providers/forms/hooks/useGeminiConfigState.ts`.
A JS `Record<string, unknown>` is modelled as an association list in
insertion order; a value is `some s` when it is a string and `none`
when it is any non-string value (the code only ever tests
`typeof v === "string"`). -/

/-- JS `unknown` values stored in an env object: `some s` models a
string, `none` models every non-string value. -/
abbrev EnvVal := Option (List Char)

/-- Association-list lookup modelling JS property access `obj[key]`. -/
def lookupKey {α : Type} (k : List Char) : List (List Char × α) → Option α
  | [] => none
  | (k', v) :: rest => if k' = k then some v else lookupKey k rest

/-- Association-list update modelling JS property assignment
`obj[key] = value`: overwrite in place if present, else append. -/
def insertEnv (k v : List Char) :
    List (List Char × List Char) → List (List Char × List Char)
  | [] => [(k, v)]
  | (k', v') :: rest =>
    if k' = k then (k, v) :: rest else (k', v') :: insertEnv k v rest

/-- The `priorityKeys` array of `envObjToString`. -/
def priorityKeys : List (List Char) :=
  ["GEMINI_API_KEY", "NODE_TLS_REJECT_UNAUTHORIZED", "https_proxy",
   "http_proxy", "GOOGLE_GEMINI_BASE_URL", "GEMINI_MODEL"].map String.toList

/-- First loop of `envObjToString`: priority keys whose value is a
truthy string (`typeof envObj[key] === "string" && envObj[key]`),
in priority order. -/
def priorityLines (env : List (List Char × EnvVal)) :
    List (List Char × List Char) :=
  priorityKeys.filterMap (fun k =>
    match lookupKey k env with
    | some (some v) => if v ≠ [] then some (k, v) else none
    | _ => none)

/-- Second loop of `envObjToString`: all remaining entries whose value
is a string (`!addedKeys.has(key) && typeof value === "string"`),
in object order. -/
def customLines (env : List (List Char × EnvVal)) (added : List (List Char)) :
    List (List Char × List Char) :=
  env.filterMap (fun kv =>
    if kv.1 ∈ added then none
    else match kv.2 with
      | some v => some (kv.1, v)
      | none => none)

/-- The full ordered list of key/value pairs that `envObjToString`
renders, priority entries first. -/
def envLinePairs (env : List (List Char × EnvVal)) :
    List (List Char × List Char) :=
  priorityLines env ++ customLines env ((priorityLines env).map Prod.fst)

/-- One output line: the template literal `key=value`. -/
def renderLine (kv : List Char × List Char) : List Char :=
  kv.1 ++ '=' :: kv.2

def envObjToString (env : List (List Char × EnvVal)) : List Char :=
  List.intercalate ('\n' :: []) ((envLinePairs env).map renderLine)

/-- Position of the first `=` in a line, modelling
`trimmed.indexOf("=")` (`none` models the result `-1`). -/
def indexOfEq : List Char → Option Nat
  | [] => none
  | c :: rest => if c = '=' then some 0 else (indexOfEq rest).map (· + 1)

/-- Processing of a single line by `envStringToObj`. -/
def parseEnvLine (env : List (List Char × List Char)) (line : List Char) :
    List (List Char × List Char) :=
  let trimmed := trimList line
  if trimmed = [] then env
  else if trimmed.head? = some '#' then env
  else
    match indexOfEq trimmed with
    | some i =>
      if 0 < i then
        insertEnv (trimList (trimmed.take i)) (trimList (trimmed.drop (i + 1))) env
      else env
    | none => env

def envStringToObj (s : List Char) : List (List Char × List Char) :=
  (s.splitOn '\n').foldl parseEnvLine []

/-- Embedding of an all-string env object into the `unknown`-valued
representation taken by `envObjToString`. -/
def envS (env : List (List Char × List Char)) : List (List Char × EnvVal) :=
  env.map (fun kv => (kv.1, some kv.2))

/-- Keys as constrained by the claim itself: non-empty and not starting
with a `#`. -/
def keyOkSpec (k : List Char) : Prop :=
  k ≠ [] ∧ k.head? ≠ some '#'

/-- Keys for which the amended round-trip holds: additionally free of
`=` and newlines and unchanged by trimming. -/
def goodKey (k : List Char) : Prop :=
  k ≠ [] ∧ trimList k = k ∧ '\n' ∉ k ∧ '=' ∉ k ∧ k.head? ≠ some '#'

/-- Values as constrained by the claim: no leading/trailing whitespace
and no embedded newlines. -/
def goodVal (v : List Char) : Prop :=
  trimList v = v ∧ '\n' ∉ v

/-! ## useDragSort.handleDragEnd

Source: `src/unnamed/part_008` (the `useDragSort` hook).  Only the
fields of `Provider` that `handleDragEnd` reads are modelled: `id` and
the optional `isPinned` flag (`none` models `undefined`).  The
`arrayMove` helper is the dnd-kit list move (remove the element at
`from`, re-insert it at `to`).  The effectful parts (awaiting
`updateSortOrder`, query invalidation, toasts) are modelled separately
for claim C5; here `handleDragEnd` is the pure function from the
sorted display list and the drag event to the single bulk update batch
it issues (`none` models the early returns that issue no update). -/

structure DragProvider where
  id : String
  isPinned : Option Bool
deriving DecidableEq

/-- One element of the `updates` batch sent to
`providersApi.updateSortOrder`. The outer `Option` on `isPinned` is
field presence (`none` = the key is not set on the update object); the
inner `Option Bool` is the raw value copied from the target provider's
optional `isPinned`. -/
structure SortUpdate where
  id : String
  sortIndex : Nat
  isPinned : Option (Option Bool)
deriving DecidableEq

/-- dnd-kit `arrayMove`: remove the element at index `i` and re-insert
it at index `j` (identity when `i` is out of bounds, which the caller
has already excluded). -/
def arrayMove {α : Type} (l : List α) (i j : Nat) : List α :=
  match l[i]? with
  | none => l
  | some x => (l.eraseIdx i).insertIdx j x

/-- JS `Array.prototype.findIndex` over provider ids (`none` models
the result `-1`). -/
def findIndexById (l : List DragProvider) (pid : String) : Option Nat :=
  l.findIdx? (fun p => p.id = pid)

/-- Truthiness of the optional `isPinned` flag, as used by the display
comparator (`a.isPinned && !b.isPinned`): pinned iff the raw value is
`true`. -/
def pinnedStatus (p : DragProvider) : Bool :=
  p.isPinned = some true

def handleDragEnd (sorted : List DragProvider) (activeId : String)
    (over : Option String) : Option (List SortUpdate) :=
  match over with
  | none => none
  | some overId =>
    if activeId = overId then none
    else
      match findIndexById sorted activeId, findIndexById sorted overId with
      | some oldIndex, some newIndex =>
        match sorted[oldIndex]?, sorted[newIndex]? with
        | some activeProvider, some overProvider =>
          let reordered := arrayMove sorted oldIndex newIndex
          some (reordered.enum.map (fun np =>
            { id := np.2.id, sortIndex := np.1,
              isPinned :=
                if np.2.id = activeProvider.id ∧
                    activeProvider.isPinned ≠ overProvider.isPinned then
                  some overProvider.isPinned
                else none }))
        | _, _ => none
      | _, _ => none

/-- The batch that `handleDragEnd` is expected to issue for a drag from
display position `i` onto position `j`: the post-move order, renumbered
`0..n-1`, with an `isPinned` field only on the dragged provider and
only when the raw `isPinned` values of the dragged and target providers
differ. -/
def dragUpdates (sorted : List DragProvider) (i j : Nat) : List SortUpdate :=
  match sorted[i]?, sorted[j]? with
  | some activeProvider, some overProvider =>
    (arrayMove sorted i j).enum.map (fun np =>
      { id := np.2.id, sortIndex := np.1,
        isPinned :=
          if np.2.id = activeProvider.id ∧
              activeProvider.isPinned ≠ overProvider.isPinned then
            some overProvider.isPinned
          else none })
  | _, _ => []

/-! ## ProviderForm.handleSubmit validation gate

Source: `src/components/providers/forms/ProviderForm.tsx`,
`handleSubmit` (lines 497-593 hold the validation chain; after it the
function always reaches `onSubmit(payload)`).  The five app ids come
from the form's own dispatch (`claude`, `codex`, `gemini`, `grok`,
`qwen`); `templateHasEntries` models `templateValueEntries.length > 0`
and `templateInvalid` models
`!validation.isValid && validation.missingField`. -/

inductive AppId where
  | claude
  | codex
  | gemini
  | grok
  | qwen
deriving DecidableEq

/-- `ProviderCategory` from `src/types.ts`. -/
inductive ProviderCategory where
  | official
  | cn_official
  | aggregator
  | third_party
  | custom
deriving DecidableEq

inductive RejectReason where
  | templateInvalid
  | nameRequired
  | endpointRequired
  | apiKeyRequired
deriving DecidableEq

/-- Outcome of `handleSubmit`: either an early `return` after a
`toast.error` (no `onSubmit` call), or the fall-through to
`onSubmit(payload)`. -/
inductive SubmitOutcome where
  | rejected (r : RejectReason)
  | submitted
deriving DecidableEq

def handleSubmitGate (appId : AppId)
    (templateHasEntries templateInvalid : Bool)
    (name baseUrl apiKey codexBaseUrl codexApiKey geminiBaseUrl
      geminiApiKey : List Char)
    (category : Option ProviderCategory) : SubmitOutcome :=
  if appId = AppId.claude ∧ templateHasEntries ∧ templateInvalid then
    .rejected .templateInvalid
  else if trimList name = [] then
    .rejected .nameRequired
  else if category ≠ some ProviderCategory.official then
    match appId with
    | .claude =>
      if trimList baseUrl = [] then .rejected .endpointRequired
      else if trimList apiKey = [] then .rejected .apiKeyRequired
      else .submitted
    | .codex =>
      if trimList codexBaseUrl = [] then .rejected .endpointRequired
      else if trimList codexApiKey = [] then .rejected .apiKeyRequired
      else .submitted
    | .gemini =>
      if trimList geminiBaseUrl = [] then .rejected .endpointRequired
      else if trimList geminiApiKey = [] then .rejected .apiKeyRequired
      else .submitted
    | .grok =>
      if trimList baseUrl = [] then .rejected .endpointRequired
      else if trimList apiKey = [] then .rejected .apiKeyRequired
      else .submitted
    | .qwen => .submitted
  else .submitted

/-- The form field holding the endpoint / base URL for each tool
(the `claude`, `grok` and `qwen` editors share the `baseUrl` state of
`useBaseUrlState`; `codex` and `gemini` have their own). -/
def endpointFor (appId : AppId)
    (baseUrl codexBaseUrl geminiBaseUrl : List Char) : List Char :=
  match appId with
  | .claude => baseUrl
  | .codex => codexBaseUrl
  | .gemini => geminiBaseUrl
  | .grok => baseUrl
  | .qwen => baseUrl

/-- The form field holding the API key / credential for each tool. -/
def credentialFor (appId : AppId)
    (apiKey codexApiKey geminiApiKey : List Char) : List Char :=
  match appId with
  | .claude => apiKey
  | .codex => codexApiKey
  | .gemini => geminiApiKey
  | .grok => apiKey
  | .qwen => apiKey

/-! ## JSON values

A structured-document value, used for the opaque `settingsConfig`
payload of `Provider` and by the `useBaseUrlState` embedding.  Objects
are association lists in insertion order, numbers are rationals. -/

inductive Json where
  | null
  | bool (b : Bool)
  | num (q : ℚ)
  | str (s : String)
  | arr (elems : List Json)
  | obj (fields : List (String × Json))

/-- Lookup in a JSON object's field list (JS property access on plain
objects; first match, keys are unique in parsed JSON). -/
def jlookup (k : String) : List (String × Json) → Option Json
  | [] => none
  | (k', v) :: rest => if k' = k then some v else jlookup k rest

/-- Property update on a field list: overwrite in place, else append
(JS assignment order semantics). -/
def jinsert (k : String) (v : Json) : List (String × Json) → List (String × Json)
  | [] => [(k, v)]
  | (k', v') :: rest =>
    if k' = k then (k, v) :: rest else (k', v') :: jinsert k v rest

/-- JS property read `obj[k]`: `none` models `undefined` (also for
reads off non-objects, which yield `undefined` for these value kinds
without throwing). -/
def Json.getField : Json → String → Option Json
  | .obj fields, k => jlookup k fields
  | _, _ => none

/-- JS truthiness of a JSON value. -/
def Json.truthy : Json → Bool
  | .null => false
  | .bool b => b
  | .num q => decide (q ≠ 0)
  | .str s => decide (s ≠ "")
  | .arr _ => true
  | .obj _ => true

/-- JS truthiness of a possibly-`undefined` value. -/
def truthyOpt : Option Json → Bool
  | none => false
  | some j => j.truthy

/-- JS property assignment `target[k] = v`: succeeds only on objects;
on any primitive it throws in strict mode (`none`). -/
def Json.setField : Json → String → Json → Option Json
  | .obj fields, k, v => some (.obj (jinsert k v fields))
  | _, _, _ => none

/-! ## Provider / Settings data model and the current-provider pointer

Source for the data shapes: `src/types.ts` (`Provider`, `ProviderMeta`,
`CustomEndpoint`, `Settings`).  `Settings` carries exactly one optional
current-provider id per supported tool; `Provider` has no boolean
current flag (its optional `current` string field is carried along
verbatim and never consulted to decide which provider is current). -/

structure CustomEndpoint where
  url : String
  addedAt : Int
  lastUsed : Option Int

structure ProviderMeta where
  custom_endpoints : Option (List (String × CustomEndpoint))
  isPartner : Option Bool
  partnerPromotionKey : Option String
  candidateModels : Option (List String)

structure Provider where
  id : String
  name : String
  settingsConfig : Json
  websiteUrl : Option String
  category : Option ProviderCategory
  createdAt : Option Int
  sortIndex : Option Int
  notes : Option String
  isPartner : Option Bool
  meta : Option ProviderMeta
  icon : Option String
  iconColor : Option String
  isPinned : Option Bool
  isDuplicated : Option Bool
  isEditedAfterDuplication : Option Bool
  current : Option String

inductive Language where
  | en
  | zh
deriving DecidableEq

structure Settings where
  showInTray : Bool
  minimizeToTrayOnClose : Bool
  enableClaudePluginIntegration : Option Bool
  launchOnStartup : Option Bool
  language : Option Language
  claudeConfigDir : Option String
  codexConfigDir : Option String
  geminiConfigDir : Option String
  qwenConfigDir : Option String
  grokConfigDir : Option String
  currentProviderClaude : Option String
  currentProviderCodex : Option String
  currentProviderGemini : Option String
  currentProviderGrok : Option String
  currentProviderQwen : Option String

/-- The per-tool current-provider pointer: one optional string field of
the device settings per tool. -/
def Settings.currentFor : Settings → AppId → Option String
  | s, .claude => s.currentProviderClaude
  | s, .codex => s.currentProviderCodex
  | s, .gemini => s.currentProviderGemini
  | s, .grok => s.currentProviderGrok
  | s, .qwen => s.currentProviderQwen

def Settings.setCurrentFor (s : Settings) (app : AppId) (v : Option String) :
    Settings :=
  match app with
  | .claude => { s with currentProviderClaude := v }
  | .codex => { s with currentProviderCodex := v }
  | .gemini => { s with currentProviderGemini := v }
  | .grok => { s with currentProviderGrok := v }
  | .qwen => { s with currentProviderQwen := v }

/-- Clearing helper: reset a pointer that references a deleted id. -/
def clearPtr (x : Option String) (pid : String) : Option String :=
  if x = some pid then none else x

/-- Modelled from the spec: on provider deletion every per-tool current
pointer that referenced the deleted record is cleared (spec §3
Provider lifecycle, §8 "deleting the currently-active Provider ...
clears that tool's current pointer"), the deletion itself being
implemented in the Tauri backend, which is not part of the sources
under `src/`. -/
def Settings.clearPointersTo (s : Settings) (pid : String) : Settings :=
  { s with
    currentProviderClaude := clearPtr s.currentProviderClaude pid
    currentProviderCodex := clearPtr s.currentProviderCodex pid
    currentProviderGemini := clearPtr s.currentProviderGemini pid
    currentProviderGrok := clearPtr s.currentProviderGrok pid
    currentProviderQwen := clearPtr s.currentProviderQwen pid }

/-- Modelled from the spec: the mutating store operations of the DAO
layer and Switch Coordinator (spec §4.3, §4.5) — switch, add, full
record update, delete — which live in the Tauri backend, absent from
`src/`.  A switch validates that the target id exists and then commits
the per-tool pointer; an add respects the primary-key constraint; an
update is an in-place replace; a delete removes the record and clears
any pointer referencing it. -/
inductive StoreOp where
  | switchTo (app : AppId) (pid : String)
  | addProvider (p : Provider)
  | updateProvider (p : Provider)
  | deleteProvider (pid : String)

structure StoreState where
  providers : List Provider
  settings : Settings

def applyOp (s : StoreState) : StoreOp → StoreState
  | .switchTo app pid =>
    if s.providers.any (fun p => p.id = pid) then
      { s with settings := s.settings.setCurrentFor app (some pid) }
    else s
  | .addProvider p =>
    if s.providers.any (fun q => q.id = p.id) then s
    else { s with providers := s.providers ++ [p] }
  | .updateProvider p =>
    { s with providers := s.providers.map (fun q => if q.id = p.id then p else q) }
  | .deleteProvider pid =>
    { providers := s.providers.filter (fun q => q.id ≠ pid),
      settings := s.settings.clearPointersTo pid }

def runOps (s : StoreState) (ops : List StoreOp) : StoreState :=
  ops.foldl applyOp s

/-- The providers recorded as current for a tool: those whose id the
per-tool device-settings pointer designates. -/
def currentProviders (s : StoreState) (app : AppId) : List Provider :=
  s.providers.filter (fun p => s.settings.currentFor app = some p.id)

/-! ## Atomic live-file write

Modelled from the spec: the Writing step of the Switch Coordinator
(spec §4.5 "write the projected document to a temporary file in the
same directory as the live target, then perform an atomic rename over
the live file" and §8 Atomicity) is implemented in the Tauri backend,
which is not part of the sources under `src/`.  The file system holds
the live file and the temp file; a crash may stop the sequence after
any prefix of its three steps (partial temp write, complete temp
write, atomic rename). -/

structure FsState where
  live : Option String
  temp : Option String

def writeTempPartial (s : FsState) (partialContent : String) : FsState :=
  { s with temp := some partialContent }

def writeTempComplete (s : FsState) (doc : String) : FsState :=
  { s with temp := some doc }

def renameTempOverLive (s : FsState) : FsState :=
  match s.temp with
  | some d => { live := some d, temp := none }
  | none => s

/-- State of the file system when the switch's Writing step is
interrupted after `k` of its three steps (`k ≥ 3` means it ran to
completion). -/
def crashedState (s0 : FsState) (doc partialContent : String) (k : Nat) :
    FsState :=
  if k = 0 then s0
  else if k = 1 then writeTempPartial s0 partialContent
  else if k = 2 then writeTempComplete (writeTempPartial s0 partialContent) doc
  else renameTempOverLive (writeTempComplete (writeTempPartial s0 partialContent) doc)

/-- A concrete provider record used by witnesses. -/
def sampleProvider (i : String) : Provider :=
  { id := i, name := "P", settingsConfig := Json.obj [], websiteUrl := none,
    category := none, createdAt := none, sortIndex := none, notes := none,
    isPartner := none, meta := none, icon := none, iconColor := none,
    isPinned := none, isDuplicated := none,
    isEditedAfterDuplication := none, current := none }

/-- A concrete settings record used by witnesses (first-run defaults:
no pointer set). -/
def sampleSettings : Settings :=
  { showInTray := true, minimizeToTrayOnClose := false,
    enableClaudePluginIntegration := none, launchOnStartup := none,
    language := none, claudeConfigDir := none, codexConfigDir := none,
    geminiConfigDir := none, qwenConfigDir := none, grokConfigDir := none,
    currentProviderClaude := none, currentProviderCodex := none,
    currentProviderGemini := none, currentProviderGrok := none,
    currentProviderQwen := none }

/-! ## Error surfacing in the core flows

Sources: `src/lib/query/queries.ts` (`useProvidersQuery`'s `queryFn`),
`src/unnamed/part_007` (`updateProvider`), `src/unnamed/part_008`
(`handleDragEnd`, effect part).  Awaited store calls are modelled as
`Except String` outcomes; `console.error` output is collected in a
`logged` list, `toast.error` in a surfaced error.  The type of the
provider map and the `sortProviders` post-processing are parameters:
the claim concerns only how errors flow, not the map contents. -/

/-- The `queryFn` of `useProvidersQuery`.  `getAll1`/`getCur1` are the
two initial store reads; when the resulting map is empty the flow
retries through `importDefault` (`importDef`) followed by a second
`getAll`/`getCurrent` pair, all inside a `try` whose `catch` only logs.
The function mirrors the source's assignment order: a failure of the
second `getCurrent` keeps the just-assigned providers but the old
current id.  The result is always a resolved query (`Except.ok`):
every `await` is wrapped in a `try`/`catch` that logs and continues. -/
def providersQueryFn (PM : Type) (sortProvidersFn : PM → PM) (emptyPM : PM)
    (isEmptyPM : PM → Bool)
    (getAll1 : Except String PM) (getCur1 : Except String String)
    (importDef : Except String Bool) (getAll2 : Except String PM)
    (getCur2 : Except String String) :
    Except String (PM × String) × List String :=
  let step1 : PM × List String :=
    match getAll1 with
    | .ok m => (m, [])
    | .error e => (emptyPM, ["获取供应商列表失败: " ++ e])
  let step2 : String × List String :=
    match getCur1 with
    | .ok c => (c, [])
    | .error e => ("", ["获取当前供应商失败: " ++ e])
  let step3 : PM × String × List String :=
    if isEmptyPM step1.1 then
      match importDef with
      | .error e => (step1.1, step2.1, ["导入默认配置失败: " ++ e])
      | .ok false => (step1.1, step2.1, [])
      | .ok true =>
        match getAll2 with
        | .error e => (step1.1, step2.1, ["导入默认配置失败: " ++ e])
        | .ok m2 =>
          match getCur2 with
          | .error e => (m2, step2.1, ["导入默认配置失败: " ++ e])
          | .ok c2 => (m2, c2, [])
    else (step1.1, step2.1, [])
  (.ok (sortProvidersFn step3.1, step3.2.1),
    step1.2 ++ step2.2 ++ step3.2.2)

/-- `updateProvider` of `useProviderActions`: the awaited mutation's
rejection propagates to the caller; a tray-menu refresh failure
afterwards is only logged and never fails the operation. -/
def updateProviderFlow (updateRes trayRes : Except String Unit) :
    Except String Unit × List String :=
  match updateRes with
  | .error e => (.error e, [])
  | .ok _ =>
    match trayRes with
    | .error te => (.ok (), [te])
    | .ok _ => (.ok (), [])

/-- Outcome of the effect part of `handleDragEnd`: the message surfaced
by `toast.error` (if any), whether the success toast was shown, and the
`console.error` log. -/
structure DragEffectResult where
  surfacedError : Option String
  successToast : Bool
  logged : List String
deriving DecidableEq

/-- The `try`/`catch` effect chain of `handleDragEnd` after a batch is
built: `updateSortOrder`, query invalidation, a nested best-effort tray
refresh, then the success toast; the outer `catch` logs and surfaces
`provider.sortUpdateFailed`. -/
def handleDragEndEffects (updateSortRes invalidateRes trayRes :
    Except String Unit) : DragEffectResult :=
  match updateSortRes with
  | .error e => ⟨some "provider.sortUpdateFailed", false, [e]⟩
  | .ok _ =>
    match invalidateRes with
    | .error e => ⟨some "provider.sortUpdateFailed", false, [e]⟩
    | .ok _ =>
      match trayRes with
      | .error te => ⟨none, true, [te]⟩
      | .ok _ => ⟨none, true, []⟩

/-! ## The two versions of useBaseUrlState

Sources: `src/unnamed/part_003` (version supporting
claude/codex/gemini/grok/qwen, suffix `V3` below) and
`src/unnamed/part_004` (version supporting claude/codex/gemini/qwen,
suffix `V4`).  External collaborators are parameters: `parseJson`
models `JSON.parse` (throw = `none`), `stringifyJson` models
`JSON.stringify(config, null, 2)`, `extractFn` and `setCodexBaseUrlFn`
model `extractCodexBaseUrl` / `setCodexBaseUrl` from
`providerConfigUtils` (not part of the sources).  A handler's result is
the configuration string passed to its change callback, `none` when the
callback is not invoked (early return or a caught exception).  The
sync `useEffect`s are modelled at `isUpdatingRef.current = false`
unless stated; the ref guard is the `isUpdating` flag. -/

/-- JS `url.trim()` on Lean strings. -/
def jsTrim (s : String) : String :=
  String.mk (trimList s.toList)

/-- The `settingsConfig || "\x7b\x7d"` defaulting before `JSON.parse`. -/
def orEmptyObjStr (s : String) : String :=
  if s = "" then "\x7b\x7d" else s

/-- The app-type union of the part_004 version, which has no grok. -/
inductive AppId4 where
  | claude
  | codex
  | gemini
  | qwen
deriving DecidableEq

def AppId4.toAppId : AppId4 → AppId
  | .claude => .claude
  | .codex => .codex
  | .gemini => .gemini
  | .qwen => .qwen

/-- The five `useState` cells of the part_003 version. -/
structure BaseUrlState3 where
  baseUrl : String
  codexBaseUrl : String
  geminiBaseUrl : String
  grokBaseUrl : String
  qwenBaseUrl : String
deriving DecidableEq

/-- The four `useState` cells of the part_004 version. -/
structure BaseUrlState4 where
  baseUrl : String
  codexBaseUrl : String
  geminiBaseUrl : String
  qwenBaseUrl : String
deriving DecidableEq

/-- The state cells the two versions share. -/
def projState (st : BaseUrlState3) : BaseUrlState4 :=
  ⟨st.baseUrl, st.codexBaseUrl, st.geminiBaseUrl, st.qwenBaseUrl⟩

/-- part_003 claude sync effect: the new `baseUrl` value, if any
(`config?.env?.ANTHROPIC_BASE_URL` as a non-empty string whose trim
differs from the current value). -/
def claudeNextV3 (parseJson : String → Option Json)
    (settingsConfig current : String) : Option String :=
  match parseJson (orEmptyObjStr settingsConfig) with
  | none => none
  | some config =>
    match (config.getField "env").bind (fun e => e.getField "ANTHROPIC_BASE_URL") with
    | some (.str s) =>
      if s ≠ "" ∧ jsTrim s ≠ current then some (jsTrim s) else none
    | _ => none

/-- part_003 codex sync effect. -/
def codexNextV3 (extractFn : String → Option String)
    (codexConfig current : String) : Option String :=
  if codexConfig = "" then none
  else
    let extracted := (extractFn codexConfig).getD ""
    if extracted ≠ current then some extracted else none

/-- part_003 gemini sync effect: the new `geminiBaseUrl`/`baseUrl`
value, if it differs from the current `geminiBaseUrl`
(non-strings map to `""`). -/
def geminiNextV3 (parseJson : String → Option Json)
    (settingsConfig current : String) : Option String :=
  match parseJson (orEmptyObjStr settingsConfig) with
  | none => none
  | some config =>
    let nextUrl :=
      match (config.getField "env").bind (fun e => e.getField "GOOGLE_GEMINI_BASE_URL") with
      | some (.str s) => jsTrim s
      | _ => ""
    if nextUrl ≠ current then some nextUrl else none

/-- part_003 grok sync effect (reads the top-level `baseURL` field). -/
def grokNextV3 (parseJson : String → Option Json)
    (settingsConfig current : String) : Option String :=
  match parseJson (orEmptyObjStr settingsConfig) with
  | none => none
  | some config =>
    let nextUrl :=
      match config.getField "baseURL" with
      | some (.str s) => jsTrim s
      | _ => ""
    if nextUrl ≠ current then some nextUrl else none

/-- part_003 qwen sync effect (reads `security.auth.baseUrl`). -/
def qwenNextV3 (parseJson : String → Option Json)
    (settingsConfig current : String) : Option String :=
  match parseJson (orEmptyObjStr settingsConfig) with
  | none => none
  | some config =>
    let nextUrl :=
      match ((config.getField "security").bind (fun s => s.getField "auth")).bind
          (fun a => a.getField "baseUrl") with
      | some (.str s) => jsTrim s
      | _ => ""
    if nextUrl ≠ current then some nextUrl else none

def claudeEffectV3 (parseJson : String → Option Json) (appType : AppId)
    (category : Option ProviderCategory) (isUpdating : Bool)
    (settingsConfig : String) (st : BaseUrlState3) : BaseUrlState3 :=
  if appType = AppId.claude then
    if category = some ProviderCategory.official then st
    else if isUpdating then st
    else
      match claudeNextV3 parseJson settingsConfig st.baseUrl with
      | some u => { st with baseUrl := u }
      | none => st
  else st

def codexEffectV3 (extractFn : String → Option String) (appType : AppId)
    (category : Option ProviderCategory) (isUpdating : Bool)
    (codexConfig : String) (st : BaseUrlState3) : BaseUrlState3 :=
  if appType = AppId.codex then
    if category = some ProviderCategory.official then st
    else if isUpdating then st
    else
      match codexNextV3 extractFn codexConfig st.codexBaseUrl with
      | some u => { st with codexBaseUrl := u }
      | none => st
  else st

def geminiEffectV3 (parseJson : String → Option Json) (appType : AppId)
    (category : Option ProviderCategory) (isUpdating : Bool)
    (settingsConfig : String) (st : BaseUrlState3) : BaseUrlState3 :=
  if appType = AppId.gemini then
    if category = some ProviderCategory.official then st
    else if isUpdating then st
    else
      match geminiNextV3 parseJson settingsConfig st.geminiBaseUrl with
      | some u => { st with geminiBaseUrl := u, baseUrl := u }
      | none => st
  else st

def grokEffectV3 (parseJson : String → Option Json) (appType : AppId)
    (category : Option ProviderCategory) (isUpdating : Bool)
    (settingsConfig : String) (st : BaseUrlState3) : BaseUrlState3 :=
  if appType = AppId.grok then
    if category = some ProviderCategory.official then st
    else if isUpdating then st
    else
      match grokNextV3 parseJson settingsConfig st.grokBaseUrl with
      | some u => { st with grokBaseUrl := u, baseUrl := u }
      | none => st
  else st

def qwenEffectV3 (parseJson : String → Option Json) (appType : AppId)
    (category : Option ProviderCategory) (isUpdating : Bool)
    (settingsConfig : String) (st : BaseUrlState3) : BaseUrlState3 :=
  if appType = AppId.qwen then
    if category = some ProviderCategory.official then st
    else if isUpdating then st
    else
      match qwenNextV3 parseJson settingsConfig st.qwenBaseUrl with
      | some u => { st with qwenBaseUrl := u, baseUrl := u }
      | none => st
  else st

/-- The part_003 sync effects, in declaration order
(claude, codex, gemini, grok, qwen). -/
def syncEffectsV3 (parseJson : String → Option Json)
    (extractFn : String → Option String) (appType : AppId)
    (category : Option ProviderCategory) (isUpdating : Bool)
    (settingsConfig codexConfig : String) (st : BaseUrlState3) :
    BaseUrlState3 :=
  qwenEffectV3 parseJson appType category isUpdating settingsConfig
    (grokEffectV3 parseJson appType category isUpdating settingsConfig
      (geminiEffectV3 parseJson appType category isUpdating settingsConfig
        (codexEffectV3 extractFn appType category isUpdating codexConfig
          (claudeEffectV3 parseJson appType category isUpdating settingsConfig st))))

/-- part_004 claude sync effect. -/
def claudeNextV4 (parseJson : String → Option Json)
    (settingsConfig current : String) : Option String :=
  match parseJson (orEmptyObjStr settingsConfig) with
  | none => none
  | some config =>
    match (config.getField "env").bind (fun e => e.getField "ANTHROPIC_BASE_URL") with
    | some (.str s) =>
      if s ≠ "" ∧ jsTrim s ≠ current then some (jsTrim s) else none
    | _ => none

/-- part_004 codex sync effect. -/
def codexNextV4 (extractFn : String → Option String)
    (codexConfig current : String) : Option String :=
  if codexConfig = "" then none
  else
    let extracted := (extractFn codexConfig).getD ""
    if extracted ≠ current then some extracted else none

/-- part_004 gemini sync effect. -/
def geminiNextV4 (parseJson : String → Option Json)
    (settingsConfig current : String) : Option String :=
  match parseJson (orEmptyObjStr settingsConfig) with
  | none => none
  | some config =>
    let nextUrl :=
      match (config.getField "env").bind (fun e => e.getField "GOOGLE_GEMINI_BASE_URL") with
      | some (.str s) => jsTrim s
      | _ => ""
    if nextUrl ≠ current then some nextUrl else none

/-- part_004 qwen sync effect. -/
def qwenNextV4 (parseJson : String → Option Json)
    (settingsConfig current : String) : Option String :=
  match parseJson (orEmptyObjStr settingsConfig) with
  | none => none
  | some config =>
    let nextUrl :=
      match ((config.getField "security").bind (fun s => s.getField "auth")).bind
          (fun a => a.getField "baseUrl") with
      | some (.str s) => jsTrim s
      | _ => ""
    if nextUrl ≠ current then some nextUrl else none

def claudeEffectV4 (parseJson : String → Option Json) (appType : AppId4)
    (category : Option ProviderCategory) (isUpdating : Bool)
    (settingsConfig : String) (st : BaseUrlState4) : BaseUrlState4 :=
  if appType = AppId4.claude then
    if category = some ProviderCategory.official then st
    else if isUpdating then st
    else
      match claudeNextV4 parseJson settingsConfig st.baseUrl with
      | some u => { st with baseUrl := u }
      | none => st
  else st

def codexEffectV4 (extractFn : String → Option String) (appType : AppId4)
    (category : Option ProviderCategory) (isUpdating : Bool)
    (codexConfig : String) (st : BaseUrlState4) : BaseUrlState4 :=
  if appType = AppId4.codex then
    if category = some ProviderCategory.official then st
    else if isUpdating then st
    else
      match codexNextV4 extractFn codexConfig st.codexBaseUrl with
      | some u => { st with codexBaseUrl := u }
      | none => st
  else st

def geminiEffectV4 (parseJson : String → Option Json) (appType : AppId4)
    (category : Option ProviderCategory) (isUpdating : Bool)
    (settingsConfig : String) (st : BaseUrlState4) : BaseUrlState4 :=
  if appType = AppId4.gemini then
    if category = some ProviderCategory.official then st
    else if isUpdating then st
    else
      match geminiNextV4 parseJson settingsConfig st.geminiBaseUrl with
      | some u => { st with geminiBaseUrl := u, baseUrl := u }
      | none => st
  else st

def qwenEffectV4 (parseJson : String → Option Json) (appType : AppId4)
    (category : Option ProviderCategory) (isUpdating : Bool)
    (settingsConfig : String) (st : BaseUrlState4) : BaseUrlState4 :=
  if appType = AppId4.qwen then
    if category = some ProviderCategory.official then st
    else if isUpdating then st
    else
      match qwenNextV4 parseJson settingsConfig st.qwenBaseUrl with
      | some u => { st with qwenBaseUrl := u, baseUrl := u }
      | none => st
  else st

/-- The part_004 sync effects, in declaration order
(claude, codex, gemini, qwen). -/
def syncEffectsV4 (parseJson : String → Option Json)
    (extractFn : String → Option String) (appType : AppId4)
    (category : Option ProviderCategory) (isUpdating : Bool)
    (settingsConfig codexConfig : String) (st : BaseUrlState4) :
    BaseUrlState4 :=
  qwenEffectV4 parseJson appType category isUpdating settingsConfig
    (geminiEffectV4 parseJson appType category isUpdating settingsConfig
      (codexEffectV4 extractFn appType category isUpdating codexConfig
        (claudeEffectV4 parseJson appType category isUpdating settingsConfig st)))

/-- part_003 `handleClaudeBaseUrlChange`: the new `settingsConfig`
string passed to `onSettingsConfigChange`, `none` when the callback is
not invoked (parse failure or a throwing property assignment, both
swallowed by the `catch`). -/
def handleClaudeBaseUrlChangeV3 (parseJson : String → Option Json)
    (stringifyJson : Json → String) (settingsConfig url : String) :
    Option String :=
  let sanitized := jsTrim url
  match parseJson (orEmptyObjStr settingsConfig) with
  | none => none
  | some config =>
    match (if truthyOpt (config.getField "env") then some config
           else config.setField "env" (.obj [])) with
    | none => none
    | some config1 =>
      match config1.getField "env" with
      | some (Json.obj envFields) =>
        (config1.setField "env"
          (.obj (jinsert "ANTHROPIC_BASE_URL" (.str sanitized) envFields))).map
          stringifyJson
      | _ => none

/-- part_003 `handleCodexBaseUrlChange`: early return when the
sanitized url is empty or no `onCodexConfigChange` callback was
supplied; otherwise the result of `setCodexBaseUrl` on the current
codex config. -/
def handleCodexBaseUrlChangeV3 (setCodexBaseUrlFn : String → String → String)
    (codexConfig : String) (hasOnCodexConfigChange : Bool) (url : String) :
    Option String :=
  let sanitized := jsTrim url
  if sanitized = "" ∨ ¬hasOnCodexConfigChange then none
  else some (setCodexBaseUrlFn codexConfig sanitized)

/-- part_003 `handleGeminiBaseUrlChange`. -/
def handleGeminiBaseUrlChangeV3 (parseJson : String → Option Json)
    (stringifyJson : Json → String) (settingsConfig url : String) :
    Option String :=
  let sanitized := jsTrim url
  match parseJson (orEmptyObjStr settingsConfig) with
  | none => none
  | some config =>
    match (if truthyOpt (config.getField "env") then some config
           else config.setField "env" (.obj [])) with
    | none => none
    | some config1 =>
      match config1.getField "env" with
      | some (Json.obj envFields) =>
        (config1.setField "env"
          (.obj (jinsert "GOOGLE_GEMINI_BASE_URL" (.str sanitized) envFields))).map
          stringifyJson
      | _ => none

/-- part_003 `handleQwenBaseUrlChange`: ensures `security` and
`security.auth` objects exist (`auth` is seeded with
`selectedType: "openai"`), then writes `security.auth.baseUrl`. -/
def handleQwenBaseUrlChangeV3 (parseJson : String → Option Json)
    (stringifyJson : Json → String) (settingsConfig url : String) :
    Option String :=
  let sanitized := jsTrim url
  match parseJson (orEmptyObjStr settingsConfig) with
  | none => none
  | some config =>
    match (if truthyOpt (config.getField "security") then some config
           else config.setField "security" (.obj [])) with
    | none => none
    | some config1 =>
      match config1.getField "security" with
      | none => none
      | some sec =>
        match (if truthyOpt (sec.getField "auth") then some config1
               else (sec.setField "auth"
                  (.obj [("selectedType", .str "openai")])).bind
                 (fun sec1 => config1.setField "security" sec1)) with
        | none => none
        | some config2 =>
          match config2.getField "security" with
          | none => none
          | some sec2 =>
            match sec2.getField "auth" with
            | some (Json.obj authFields) =>
              ((sec2.setField "auth"
                  (.obj (jinsert "baseUrl" (.str sanitized) authFields))).bind
                (fun sec3 => config2.setField "security" sec3)).map stringifyJson
            | _ => none

/-- part_004 `handleClaudeBaseUrlChange`. -/
def handleClaudeBaseUrlChangeV4 (parseJson : String → Option Json)
    (stringifyJson : Json → String) (settingsConfig url : String) :
    Option String :=
  let sanitized := jsTrim url
  match parseJson (orEmptyObjStr settingsConfig) with
  | none => none
  | some config =>
    match (if truthyOpt (config.getField "env") then some config
           else config.setField "env" (.obj [])) with
    | none => none
    | some config1 =>
      match config1.getField "env" with
      | some (Json.obj envFields) =>
        (config1.setField "env"
          (.obj (jinsert "ANTHROPIC_BASE_URL" (.str sanitized) envFields))).map
          stringifyJson
      | _ => none

/-- part_004 `handleCodexBaseUrlChange`. -/
def handleCodexBaseUrlChangeV4 (setCodexBaseUrlFn : String → String → String)
    (codexConfig : String) (hasOnCodexConfigChange : Bool) (url : String) :
    Option String :=
  let sanitized := jsTrim url
  if sanitized = "" ∨ ¬hasOnCodexConfigChange then none
  else some (setCodexBaseUrlFn codexConfig sanitized)

/-- part_004 `handleGeminiBaseUrlChange`. -/
def handleGeminiBaseUrlChangeV4 (parseJson : String → Option Json)
    (stringifyJson : Json → String) (settingsConfig url : String) :
    Option String :=
  let sanitized := jsTrim url
  match parseJson (orEmptyObjStr settingsConfig) with
  | none => none
  | some config =>
    match (if truthyOpt (config.getField "env") then some config
           else config.setField "env" (.obj [])) with
    | none => none
    | some config1 =>
      match config1.getField "env" with
      | some (Json.obj envFields) =>
        (config1.setField "env"
          (.obj (jinsert "GOOGLE_GEMINI_BASE_URL" (.str sanitized) envFields))).map
          stringifyJson
      | _ => none

/-- part_004 `handleQwenBaseUrlChange`. -/
def handleQwenBaseUrlChangeV4 (parseJson : String → Option Json)
    (stringifyJson : Json → String) (settingsConfig url : String) :
    Option String :=
  let sanitized := jsTrim url
  match parseJson (orEmptyObjStr settingsConfig) with
  | none => none
  | some config =>
    match (if truthyOpt (config.getField "security") then some config
           else config.setField "security" (.obj [])) with
    | none => none
    | some config1 =>
      match config1.getField "security" with
      | none => none
      | some sec =>
        match (if truthyOpt (sec.getField "auth") then some config1
               else (sec.setField "auth"
                  (.obj [("selectedType", .str "openai")])).bind
                 (fun sec1 => config1.setField "security" sec1)) with
        | none => none
        | some config2 =>
          match config2.getField "security" with
          | none => none
          | some sec2 =>
            match sec2.getField "auth" with
            | some (Json.obj authFields) =>
              ((sec2.setField "auth"
                  (.obj (jinsert "baseUrl" (.str sanitized) authFields))).bind
                (fun sec3 => config2.setField "security" sec3)).map stringifyJson
            | _ => none

end CCSwitch

namespace CCSwitch

/-- Claim C10: `validateAndClampInterval` always returns an integer in
the range `[0, 1440]`; an empty or non-numeric input yields `0`, a
negative number yields `0`, and any other number is floored to an
integer and clamped to at most `1440`. -/
theorem validateAndClampInterval_spec (parsedNum : Option ℚ) (trimIsEmpty : Bool) :
    (0 ≤ validateAndClampInterval parsedNum trimIsEmpty ∧
      validateAndClampInterval parsedNum trimIsEmpty ≤ 1440) ∧
    (parsedNum = none → validateAndClampInterval parsedNum trimIsEmpty = 0) ∧
    (trimIsEmpty = true → validateAndClampInterval parsedNum trimIsEmpty = 0) ∧
    (∀ num : ℚ, parsedNum = some num → trimIsEmpty = false → num < 0 →
      validateAndClampInterval parsedNum trimIsEmpty = 0) ∧
    (∀ num : ℚ, parsedNum = some num → trimIsEmpty = false → 0 ≤ num →
      validateAndClampInterval parsedNum trimIsEmpty = min 1440 ⌊num⌋) := by
  refine ⟨?_, ?_, ?_, ?_, ?_⟩
  · cases parsedNum with
    | none => exact ⟨le_refl 0, by show (0 : ℤ) ≤ 1440; norm_num⟩
    | some num =>
      simp only [validateAndClampInterval]
      split_ifs with he hn
      · exact ⟨le_refl 0, by show (0 : ℤ) ≤ 1440; norm_num⟩
      · exact ⟨le_refl 0, by show (0 : ℤ) ≤ 1440; norm_num⟩
      · refine ⟨le_max_left 0 _, ?_⟩
        have h0 : (0 : ℤ) ≤ min 1440 ⌊num⌋ := by
          have hf : (0 : ℤ) ≤ ⌊num⌋ := Int.floor_nonneg.mpr (not_lt.mp hn)
          exact le_min (by norm_num) hf
        rw [max_eq_right h0]
        exact min_le_left _ _
  · intro h; subst h; rfl
  · intro h; subst h; cases parsedNum <;> rfl
  · intro num hnum he hneg
    subst hnum; subst he
    simp [validateAndClampInterval, hneg]
  · intro num hnum he hpos
    subst hnum; subst he
    have hn : ¬ num < 0 := not_lt.mpr hpos
    have h0 : (0 : ℤ) ≤ min 1440 ⌊num⌋ := by
      have hf : (0 : ℤ) ≤ ⌊num⌋ := Int.floor_nonneg.mpr hpos
      exact le_min (by norm_num) hf
    simp [validateAndClampInterval, hn, max_eq_right h0]

/-- Witness for C10: instantiating the clamping clause at the input
`5000` (non-empty, non-negative) gives `min 1440 5000 = 1440`. -/
theorem validateAndClampInterval_spec_witness :
    validateAndClampInterval (some 5000) false = 1440 := by
  have h := (validateAndClampInterval_spec (some 5000) false).2.2.2.2 5000 rfl rfl (by norm_num)
  rw [h]
  norm_num

/-- Claim C9: whenever all three decode attempts of `decodeBase64Utf8`
fail (direct decode of the cleaned input, decode of the re-padded
input, and the legacy fallback), the function returns the input string
unchanged; the embedding is a total function, so it terminates on every
input. -/
theorem decodeBase64Utf8_fallback (atobFn : List Char → Option (List Nat))
    (utf8Decode : List Nat → List Char)
    (legacyDecode : List Nat → Option (List Char))
    (str : List Char)
    (h1 : atobFn (cleanedInput str) = none)
    (h2 : atobFn (paddedCleaned str) = none)
    (h3 : ∀ bytes, atobFn (replaceSpacesWithPlus str) = some bytes →
      legacyDecode bytes = none) :
    decodeBase64Utf8 atobFn utf8Decode legacyDecode str = str := by
  simp only [decodeBase64Utf8, h1, h2]
  cases hcase : atobFn (replaceSpacesWithPlus str) with
  | none => rfl
  | some bytes => simp [h3 bytes hcase]

/-- Witness for C9: with an `atob` that always fails, the decoder
returns the concrete input `"abc"` unchanged. -/
theorem decodeBase64Utf8_fallback_witness :
    decodeBase64Utf8 (fun _ => none) (fun _ => []) (fun _ => none)
      ('a' :: 'b' :: 'c' :: []) = 'a' :: 'b' :: 'c' :: [] :=
  decodeBase64Utf8_fallback (fun _ => none) (fun _ => []) (fun _ => none)
    ('a' :: 'b' :: 'c' :: []) rfl rfl (fun _ h => by exact absurd h (by simp))

/-! ### Supporting lemmas on trimming and line parsing -/

theorem dropWhile_cons_false {c : Char} {l : List Char} (h : isWs c = false) :
    List.dropWhile isWs (c :: l) = c :: l := by
  simp [List.dropWhile, h]

theorem dropWhile_self_or_lt (l : List Char) :
    List.dropWhile isWs l = l ∨ (List.dropWhile isWs l).length < l.length := by
  induction l with
  | nil => left; rfl
  | cons c t ih =>
    cases hc : isWs c with
    | false => left; exact dropWhile_cons_false hc
    | true =>
      right
      have hstep : List.dropWhile isWs (c :: t) = List.dropWhile isWs t := by
        simp [List.dropWhile, hc]
      rw [hstep]
      rcases ih with h | h
      · rw [h]; exact Nat.lt_succ_self _
      · exact Nat.lt_trans h (Nat.lt_succ_self _)

theorem dropWhile_length_le (l : List Char) :
    (List.dropWhile isWs l).length ≤ l.length := by
  rcases dropWhile_self_or_lt l with h | h
  · rw [h]
  · exact Nat.le_of_lt h

theorem dropWhile_eq_self_head {c : Char} {l : List Char}
    (h : List.dropWhile isWs (c :: l) = c :: l) : isWs c = false := by
  cases hc : isWs c with
  | false => rfl
  | true =>
    exfalso
    have hstep : List.dropWhile isWs (c :: l) = List.dropWhile isWs l := by
      simp [List.dropWhile, hc]
    rw [hstep] at h
    have hle := dropWhile_length_le l
    rw [h] at hle
    simp at hle

theorem trim_eq_self_parts {l : List Char} (h : trimList l = l) :
    List.dropWhile isWs l = l ∧
      List.dropWhile isWs l.reverse = l.reverse := by
  have hd : List.dropWhile isWs l = l := by
    rcases dropWhile_self_or_lt l with h1 | h1
    · exact h1
    · exfalso
      have hlen : (trimList l).length ≤ (List.dropWhile isWs l).length := by
        unfold trimList
        rw [List.length_reverse]
        calc (List.dropWhile isWs (List.dropWhile isWs l).reverse).length
            ≤ (List.dropWhile isWs l).reverse.length := dropWhile_length_le _
          _ = (List.dropWhile isWs l).length := List.length_reverse _
      rw [h] at hlen
      exact absurd (Nat.lt_of_le_of_lt hlen h1) (Nat.lt_irrefl _)
  refine ⟨hd, ?_⟩
  have h2 : (List.dropWhile isWs l.reverse).reverse = l := by
    unfold trimList at h
    rw [hd] at h
    exact h
  have := congrArg List.reverse h2
  rw [List.reverse_reverse] at this
  exact this

theorem trim_eq_self_of_parts {l : List Char}
    (h1 : List.dropWhile isWs l = l)
    (h2 : List.dropWhile isWs l.reverse = l.reverse) :
    trimList l = l := by
  unfold trimList
  rw [h1, h2, List.reverse_reverse]

theorem indexOfEq_append {k : List Char} (v : List Char) (h : '=' ∉ k) :
    indexOfEq (k ++ '=' :: v) = some k.length := by
  induction k with
  | nil => simp [indexOfEq]
  | cons c t ih =>
    have hc : c ≠ '=' := fun hc => h (hc ▸ List.mem_cons_self c t)
    have ht : '=' ∉ t := fun hm => h (List.mem_cons_of_mem c hm)
    simp only [List.cons_append, indexOfEq]
    rw [if_neg (fun hcc : c = '=' => hc hcc)]
    have hih := ih ht
    simp only [List.append_eq] at hih ⊢
    rw [hih]
    rfl

theorem take_len_append (k t : List Char) : (k ++ t).take k.length = k := by
  induction k with
  | nil => rfl
  | cons c r ih => simp [List.take, ih]

theorem drop_len_succ_append (k : List Char) (c : Char) (v : List Char) :
    (k ++ c :: v).drop (k.length + 1) = v := by
  induction k with
  | nil => rfl
  | cons d r ih => simp [ih]

theorem goodKey_head {k : List Char} (hk : goodKey k) :
    ∃ c t, k = c :: t ∧ isWs c = false := by
  obtain ⟨hne, htrim, _, _, _⟩ := hk
  cases k with
  | nil => exact absurd rfl hne
  | cons c t =>
    refine ⟨c, t, rfl, ?_⟩
    exact dropWhile_eq_self_head (trim_eq_self_parts htrim).1

theorem trimList_renderLine {k v : List Char} (hk : goodKey k) (hv : goodVal v) :
    trimList (renderLine (k, v)) = renderLine (k, v) := by
  obtain ⟨c, t, hkct, hcws⟩ := goodKey_head hk
  apply trim_eq_self_of_parts
  · show List.dropWhile isWs (k ++ '=' :: v) = k ++ '=' :: v
    rw [hkct]
    exact dropWhile_cons_false hcws
  · show List.dropWhile isWs (k ++ '=' :: v).reverse = (k ++ '=' :: v).reverse
    have hrev : (k ++ '=' :: v).reverse = v.reverse ++ '=' :: k.reverse := by
      simp
    rw [hrev]
    cases hvr : v.reverse with
    | nil =>
      simp only [List.nil_append]
      exact dropWhile_cons_false (by decide)
    | cons c' t' =>
      have hc' : isWs c' = false := by
        have hvparts := (trim_eq_self_parts hv.1).2
        rw [hvr] at hvparts
        exact dropWhile_eq_self_head hvparts
      simp only [List.cons_append]
      exact dropWhile_cons_false hc'

theorem parseEnvLine_render {k v : List Char} (env : List (List Char × List Char))
    (hk : goodKey k) (hv : goodVal v) :
    parseEnvLine env (renderLine (k, v)) = insertEnv k v env := by
  obtain ⟨c, t, hkct, _⟩ := goodKey_head hk
  have htrim := trimList_renderLine hk hv
  have hne : renderLine (k, v) ≠ [] := by
    show k ++ '=' :: v ≠ []
    rw [hkct]; simp
  have hhead : (renderLine (k, v)).head? ≠ some '#' := by
    show (k ++ '=' :: v).head? ≠ some '#'
    rw [hkct]
    simp only [List.cons_append, List.head?_cons]
    intro hcon
    have hc : c = '#' := by injection hcon
    have := hk.2.2.2.2
    rw [hkct, hc] at this
    exact this rfl
  have hidx : indexOfEq (renderLine (k, v)) = some k.length :=
    indexOfEq_append v hk.2.2.2.1
  have hpos : 0 < k.length := by
    rw [hkct]; exact Nat.succ_pos _
  unfold parseEnvLine
  rw [htrim]
  rw [if_neg hne, if_neg (fun h => hhead h)]
  rw [hidx]
  show (if 0 < k.length then
      insertEnv (trimList (List.take k.length (renderLine (k, v))))
        (trimList (List.drop (k.length + 1) (renderLine (k, v)))) env
    else env) = insertEnv k v env
  rw [if_pos hpos]
  have htake : (renderLine (k, v)).take k.length = k := take_len_append k _
  have hdrop : (renderLine (k, v)).drop (k.length + 1) = v :=
    drop_len_succ_append k '=' v
  rw [htake, hdrop, hk.2.1, hv.1]

/-! ### Supporting lemmas on association lists and the line pair list -/

theorem lookupKey_eq_some_mem {α : Type} {k : List Char} {v : α}
    {env : List (List Char × α)} (h : lookupKey k env = some v) : (k, v) ∈ env := by
  induction env with
  | nil => exact absurd h (by simp [lookupKey])
  | cons kv rest ih =>
    obtain ⟨k', v'⟩ := kv
    by_cases hk : k' = k
    · subst hk
      have : v' = v := by
        have := h
        simp [lookupKey] at this
        exact this
      subst this
      exact List.mem_cons_self _ _
    · have hrest : lookupKey k rest = some v := by
        have := h
        simp [lookupKey, hk] at this
        exact this
      exact List.mem_cons_of_mem _ (ih hrest)

theorem mem_lookupKey_of_nodup {α : Type} {k : List Char} {v : α}
    {env : List (List Char × α)} (hnd : (env.map Prod.fst).Nodup)
    (h : (k, v) ∈ env) : lookupKey k env = some v := by
  induction env with
  | nil => exact absurd h (by simp)
  | cons kv rest ih =>
    obtain ⟨k', v'⟩ := kv
    rcases List.mem_cons.mp h with heq | hmem
    · obtain ⟨hk, hv⟩ := Prod.mk.inj heq
      subst hk; subst hv
      simp [lookupKey]
    · have hk : k' ≠ k := by
        intro hkk
        subst hkk
        have : k' ∈ rest.map Prod.fst := List.mem_map.mpr ⟨(k', v), hmem, rfl⟩
        exact (List.nodup_cons.mp hnd).1 this
      have hnd' : (rest.map Prod.fst).Nodup := (List.nodup_cons.mp hnd).2
      simp [lookupKey, hk, ih hnd' hmem]

theorem mem_priorityLines {k v : List Char} {env : List (List Char × EnvVal)}
    (h : (k, v) ∈ priorityLines env) :
    k ∈ priorityKeys ∧ lookupKey k env = some (some v) ∧ v ≠ [] := by
  obtain ⟨a, ha, hfa⟩ := List.mem_filterMap.mp h
  rcases hlook : lookupKey a env with _ | w
  · simp [hlook] at hfa
  · rcases w with _ | s
    · simp [hlook] at hfa
    · by_cases hs : s = []
      · simp [hlook, hs] at hfa
      · simp only [hlook] at hfa
        rw [if_pos hs] at hfa
        simp only [Option.some.injEq] at hfa
        obtain ⟨hk, hv⟩ := Prod.mk.inj hfa
        subst hk; subst hv
        exact ⟨ha, hlook, hs⟩

theorem priorityLines_mem_of {k v : List Char} {env : List (List Char × EnvVal)}
    (hk : k ∈ priorityKeys) (hlook : lookupKey k env = some (some v)) (hv : v ≠ []) :
    (k, v) ∈ priorityLines env := by
  apply List.mem_filterMap.mpr
  exact ⟨k, hk, by rw [hlook]; simp [hv]⟩

theorem mem_customLines {k v : List Char} {env : List (List Char × EnvVal)}
    {added : List (List Char)} (h : (k, v) ∈ customLines env added) :
    (k, some v) ∈ env ∧ k ∉ added := by
  obtain ⟨kv, hkv, hfa⟩ := List.mem_filterMap.mp h
  obtain ⟨k0, v0⟩ := kv
  by_cases hmem : k0 ∈ added
  · simp [customLines, hmem] at hfa
  · rcases v0 with _ | s
    · simp [hmem] at hfa
    · have hred : (if k0 ∈ added then (none : Option (List Char × List Char))
          else some (k0, s)) = some (k, v) := hfa
      rw [if_neg hmem] at hred
      have hfa' : (k0, s) = (k, v) := Option.some.inj hred
      obtain ⟨hk, hv⟩ := Prod.mk.inj hfa'
      subst hk; subst hv
      exact ⟨hkv, hmem⟩

theorem customLines_mem_of {k v : List Char} {env : List (List Char × EnvVal)}
    {added : List (List Char)} (hmem : (k, some v) ∈ env) (hna : k ∉ added) :
    (k, v) ∈ customLines env added := by
  apply List.mem_filterMap.mpr
  exact ⟨(k, some v), hmem, by simp [hna]⟩

theorem priorityLines_keys_sublist (env : List (List Char × EnvVal)) :
    ((priorityLines env).map Prod.fst).Sublist priorityKeys := by
  unfold priorityLines
  generalize priorityKeys = ks
  induction ks with
  | nil => simp
  | cons a rest ih =>
    simp only [List.filterMap_cons]
    rcases hlook : lookupKey a env with _ | w
    · simp only [hlook]
      exact ih.cons a
    · rcases w with _ | s
      · simp only [hlook]
        exact ih.cons a
      · by_cases hs : s = []
        · simp only [hlook, hs]
          exact ih.cons a
        · simp only [hlook]
          rw [if_pos hs]
          exact ih.cons₂ a

theorem customLines_keys_sublist (env : List (List Char × EnvVal))
    (added : List (List Char)) :
    ((customLines env added).map Prod.fst).Sublist (env.map Prod.fst) := by
  unfold customLines
  induction env with
  | nil => simp
  | cons kv rest ih =>
    simp only [List.filterMap_cons, List.map_cons]
    by_cases hmem : kv.1 ∈ added
    · rw [if_pos hmem]
      exact ih.cons kv.1
    · rw [if_neg hmem]
      rcases kv.2 with _ | s
      · exact ih.cons kv.1
      · simp only [List.map_cons]
        exact ih.cons₂ kv.1

theorem priorityKeys_nodup : priorityKeys.Nodup := by decide

theorem envLinePairs_keys_nodup {env : List (List Char × EnvVal)}
    (hnd : (env.map Prod.fst).Nodup) :
    ((envLinePairs env).map Prod.fst).Nodup := by
  unfold envLinePairs
  rw [List.map_append]
  apply List.Nodup.append
  · exact (priorityLines_keys_sublist env).nodup priorityKeys_nodup
  · exact (customLines_keys_sublist env _).nodup hnd
  · intro k hk1 hk2
    obtain ⟨⟨k2, v2⟩, hmem2, hfst2⟩ := List.mem_map.mp hk2
    subst hfst2
    exact (mem_customLines hmem2).2 hk1

theorem mem_envLinePairs_of_mem {k v : List Char} {env : List (List Char × EnvVal)}
    (hnd : (env.map Prod.fst).Nodup) (h : (k, some v) ∈ env) :
    (k, v) ∈ envLinePairs env := by
  unfold envLinePairs
  by_cases hadd : k ∈ (priorityLines env).map Prod.fst
  · obtain ⟨⟨k2, v2⟩, hmem2, hfst2⟩ := List.mem_map.mp hadd
    subst hfst2
    obtain ⟨_, hlook2, _⟩ := mem_priorityLines hmem2
    have hlook : lookupKey k2 env = some (some v) := mem_lookupKey_of_nodup hnd h
    rw [hlook] at hlook2
    have hv : v = v2 := Option.some.inj (Option.some.inj hlook2)
    subst hv
    exact List.mem_append_left _ hmem2
  · exact List.mem_append_right _ (customLines_mem_of h hadd)

theorem mem_of_mem_envLinePairs {k v : List Char} {env : List (List Char × EnvVal)}
    (h : (k, v) ∈ envLinePairs env) : (k, some v) ∈ env := by
  unfold envLinePairs at h
  rcases List.mem_append.mp h with hp | hc
  · exact lookupKey_eq_some_mem (mem_priorityLines hp).2.1
  · exact (mem_customLines hc).1

theorem nonstring_not_in_envLinePairs {k : List Char} {env : List (List Char × EnvVal)}
    (hnd : (env.map Prod.fst).Nodup) (h : (k, (none : EnvVal)) ∈ env) :
    k ∉ (envLinePairs env).map Prod.fst := by
  intro hmem
  obtain ⟨⟨k2, v2⟩, hmem2, hfst2⟩ := List.mem_map.mp hmem
  subst hfst2
  have h1 : lookupKey k2 env = some (some v2) :=
    mem_lookupKey_of_nodup hnd (mem_of_mem_envLinePairs hmem2)
  have h2 : lookupKey k2 env = some none := mem_lookupKey_of_nodup hnd h
  rw [h1] at h2
  exact absurd (Option.some.inj h2) (by simp)

theorem insertEnv_append {k v : List Char} {acc : List (List Char × List Char)}
    (h : k ∉ acc.map Prod.fst) : insertEnv k v acc = acc ++ [(k, v)] := by
  induction acc with
  | nil => rfl
  | cons kv rest ih =>
    obtain ⟨k0, v0⟩ := kv
    have hk : k0 ≠ k := by
      intro hkk
      exact h (List.mem_map.mpr ⟨(k0, v0), List.mem_cons_self _ _, hkk⟩)
    have hrest : k ∉ rest.map Prod.fst := by
      intro hm
      obtain ⟨p, hp, hfp⟩ := List.mem_map.mp hm
      exact h (List.mem_map.mpr ⟨p, List.mem_cons_of_mem _ hp, hfp⟩)
    simp only [insertEnv, if_neg hk, ih hrest, List.cons_append]

theorem foldl_insert_eq_append {ps : List (List Char × List Char)} :
    ∀ acc : List (List Char × List Char), (ps.map Prod.fst).Nodup →
      (∀ q ∈ ps.map Prod.fst, q ∉ acc.map Prod.fst) →
      ps.foldl (fun e kv => insertEnv kv.1 kv.2 e) acc = acc ++ ps := by
  induction ps with
  | nil => intro acc _ _; simp
  | cons kv rest ih =>
    intro acc hnd hdis
    obtain ⟨k0, v0⟩ := kv
    have hk0 : k0 ∉ acc.map Prod.fst :=
      hdis k0 (by simp)
    have hstep : insertEnv k0 v0 acc = acc ++ [(k0, v0)] := insertEnv_append hk0
    simp only [List.foldl_cons]
    rw [hstep]
    have hnd' : (rest.map Prod.fst).Nodup := by
      simp only [List.map_cons, List.nodup_cons] at hnd
      exact hnd.2
    have hdis' : ∀ q ∈ rest.map Prod.fst, q ∉ (acc ++ [(k0, v0)]).map Prod.fst := by
      intro q hq
      rw [List.map_append]
      intro hmem
      rcases List.mem_append.mp hmem with hacc | hsingle
      · exact hdis q (by simp [hq]) hacc
      · simp at hsingle
        subst hsingle
        simp only [List.map_cons, List.nodup_cons] at hnd
        exact hnd.1 hq
    rw [ih (acc ++ [(k0, v0)]) hnd' hdis']
    simp

theorem foldl_parse_render {ps : List (List Char × List Char)}
    (hgood : ∀ kv ∈ ps, goodKey kv.1 ∧ goodVal kv.2) :
    ∀ acc, (ps.map renderLine).foldl parseEnvLine acc =
      ps.foldl (fun e kv => insertEnv kv.1 kv.2 e) acc := by
  induction ps with
  | nil => intro acc; rfl
  | cons kv rest ih =>
    intro acc
    obtain ⟨k0, v0⟩ := kv
    have hkv := hgood (k0, v0) (List.mem_cons_self _ _)
    have hrest : ∀ kv ∈ rest, goodKey kv.1 ∧ goodVal kv.2 :=
      fun kv hm => hgood kv (List.mem_cons_of_mem _ hm)
    simp only [List.map_cons, List.foldl_cons]
    rw [parseEnvLine_render acc hkv.1 hkv.2]
    exact ih hrest _

theorem newline_not_mem_renderLine {k v : List Char}
    (hk : '\n' ∉ k) (hv : '\n' ∉ v) : '\n' ∉ renderLine (k, v) := by
  intro hmem
  rcases List.mem_append.mp hmem with h | h
  · exact hk h
  · rcases List.mem_cons.mp h with h | h
    · exact absurd h (by decide)
    · exact hv h

theorem envLinePairs_good {env : List (List Char × EnvVal)}
    (hgood : ∀ k v, (k, some v) ∈ env → goodKey k ∧ goodVal v) :
    ∀ kv ∈ envLinePairs env, goodKey kv.1 ∧ goodVal kv.2 := by
  intro kv hmem
  obtain ⟨k0, v0⟩ := kv
  exact hgood k0 v0 (mem_of_mem_envLinePairs hmem)

theorem envStringToObj_nil : envStringToObj [] = [] := rfl

theorem roundtrip_pairs {env : List (List Char × EnvVal)}
    (hnd : (env.map Prod.fst).Nodup)
    (hgood : ∀ k v, (k, some v) ∈ env → goodKey k ∧ goodVal v) :
    envStringToObj (envObjToString env) = envLinePairs env := by
  have hpgood := envLinePairs_good hgood
  by_cases hpairs : envLinePairs env = []
  · rw [show envObjToString env = [] by
      unfold envObjToString; rw [hpairs]; rfl]
    rw [envStringToObj_nil, hpairs]
  · have hpairs_ne : envLinePairs env ≠ [] := hpairs
    have hlines_ne : (envLinePairs env).map renderLine ≠ [] := by
      intro h
      exact hpairs_ne (List.map_eq_nil_iff.mp h)
    have hnoNl : ∀ l ∈ (envLinePairs env).map renderLine, '\n' ∉ l := by
      intro l hl
      obtain ⟨kv, hkv, hr⟩ := List.mem_map.mp hl
      obtain ⟨hk, hv⟩ := hpgood kv hkv
      subst hr
      obtain ⟨k0, v0⟩ := kv
      exact newline_not_mem_renderLine hk.2.2.1 hv.2
    unfold envStringToObj envObjToString
    rw [List.splitOn_intercalate ((envLinePairs env).map renderLine) '\n' hnoNl hlines_ne]
    rw [foldl_parse_render hpgood]
    have hkeysnd : ((envLinePairs env).map Prod.fst).Nodup :=
      envLinePairs_keys_nodup hnd
    rw [foldl_insert_eq_append [] hkeysnd (by intro q _ hq; simp at hq)]
    simp

theorem envS_map_fst (env : List (List Char × List Char)) :
    (envS env).map Prod.fst = env.map Prod.fst := by
  unfold envS
  rw [List.map_map]
  rfl

theorem mem_envS_of_mem {k v : List Char} {env : List (List Char × List Char)}
    (h : (k, v) ∈ env) : (k, some v) ∈ envS env :=
  List.mem_map.mpr ⟨(k, v), h, rfl⟩

theorem mem_of_mem_envS {k : List Char} {x : EnvVal}
    {env : List (List Char × List Char)} (h : (k, x) ∈ envS env) :
    ∃ v, x = some v ∧ (k, v) ∈ env := by
  obtain ⟨⟨k0, v0⟩, hmem, heq⟩ := List.mem_map.mp h
  obtain ⟨hk, hx⟩ := Prod.mk.inj heq
  subst hk
  exact ⟨v0, hx.symm, hmem⟩

/-- Claim C3, counterexample to the claim as stated: the env object
with the single entry `"A=B" -> "C"` satisfies every hypothesis of the
claim (its value has no surrounding whitespace and no newline, its key
is non-empty and does not start with `#`), yet the round-trip through
`envObjToString` and `envStringToObj` does not restore it: the line
`A=B=C` is re-parsed as `"A" -> "B=C"`, so the key `"A=B"` is lost. -/
theorem envRoundTrip_cex :
    (∀ kv ∈ [("A=B".toList, "C".toList)], keyOkSpec kv.1 ∧ goodVal kv.2) ∧
    (([("A=B".toList, "C".toList)].map Prod.fst).Nodup) ∧
    lookupKey "A=B".toList
        (envStringToObj (envObjToString (envS [("A=B".toList, "C".toList)])))
      ≠ lookupKey "A=B".toList [("A=B".toList, "C".toList)] := by
  refine ⟨?_, ?_, ?_⟩
  · intro kv hkv
    simp only [List.mem_singleton] at hkv
    subst hkv
    exact ⟨⟨by decide, by decide⟩, ⟨by decide, by decide⟩⟩
  · decide
  · decide

/-- Claim C3 (amended): the round-trip `envStringToObj ∘ envObjToString`
restores every entry of the env map — as a key-to-value map — provided
that in addition to the claim's hypotheses (values without surrounding
whitespace or newlines, keys non-empty and not starting with `#`) every
key also contains no `=` and no newline and carries no surrounding
whitespace. Unknown keys outside the priority list are preserved. -/
theorem envRoundTrip_amended (env : List (List Char × List Char))
    (hnd : (env.map Prod.fst).Nodup)
    (hgood : ∀ kv ∈ env, goodKey kv.1 ∧ goodVal kv.2) :
    ∀ q, lookupKey q (envStringToObj (envObjToString (envS env))) =
      lookupKey q env := by
  have hndS : ((envS env).map Prod.fst).Nodup := by
    rw [envS_map_fst]; exact hnd
  have hgoodS : ∀ k v, (k, some v) ∈ envS env → goodKey k ∧ goodVal v := by
    intro k v hm
    obtain ⟨v0, hx, hmem⟩ := mem_of_mem_envS hm
    have hv : v = v0 := Option.some.inj hx
    subst hv
    exact hgood (k, v) hmem
  rw [roundtrip_pairs hndS hgoodS]
  intro q
  cases hq : lookupKey q env with
  | some v =>
    have hmem : (q, v) ∈ env := lookupKey_eq_some_mem hq
    have hline : (q, v) ∈ envLinePairs (envS env) :=
      mem_envLinePairs_of_mem hndS (mem_envS_of_mem hmem)
    exact mem_lookupKey_of_nodup (envLinePairs_keys_nodup hndS) hline
  | none =>
    cases hL : lookupKey q (envLinePairs (envS env)) with
    | none => rfl
    | some w =>
      exfalso
      have hmem : (q, w) ∈ envLinePairs (envS env) := lookupKey_eq_some_mem hL
      obtain ⟨v0, _, hmemEnv⟩ := mem_of_mem_envS (mem_of_mem_envLinePairs hmem)
      have hsome := mem_lookupKey_of_nodup hnd hmemEnv
      rw [hq] at hsome
      exact absurd hsome (by simp)

/-- Witness for the amended C3: the concrete entry `"FOO" -> "bar"`
(a key outside the priority list) survives the round-trip. -/
theorem envRoundTrip_amended_witness :
    lookupKey "FOO".toList
        (envStringToObj (envObjToString (envS [("FOO".toList, "bar".toList)]))) =
      lookupKey "FOO".toList [("FOO".toList, "bar".toList)] :=
  envRoundTrip_amended [("FOO".toList, "bar".toList)] (by decide)
    (by intro kv hkv
        simp only [List.mem_singleton] at hkv
        subst hkv
        exact ⟨⟨by decide, by decide, by decide, by decide, by decide⟩, by decide, by decide⟩)
    "FOO".toList

/-- Claim C7, counterexample to the claim as stated: a key whose value
is the empty string does produce an output line. The env object with
the single entry `GEMINI_API_KEY -> ""` projects to the line
`GEMINI_API_KEY=` (the empty value only excludes the key from the
priority section; the second loop still renders it). -/
theorem envObjToString_emptyValue_cex :
    envObjToString [("GEMINI_API_KEY".toList, some ([] : List Char))] =
      "GEMINI_API_KEY=".toList ∧
    "GEMINI_API_KEY=".toList ≠ ([] : List Char) := by
  exact ⟨by decide, by decide⟩

/-- Claim C7 (amended): `envObjToString` is total and renders exactly
the string-valued entries, one line `key=value` per entry (assuming the
JS object's keys are distinct): a key with a non-string value produces
no line, while a key with a string value — including the empty string —
produces exactly one line. -/
theorem envObjToString_lines_amended (env : List (List Char × EnvVal))
    (hnd : (env.map Prod.fst).Nodup) :
    (∀ k v, (k, some v) ∈ env → (k, v) ∈ envLinePairs env) ∧
    (∀ k, (k, (none : EnvVal)) ∈ env → k ∉ (envLinePairs env).map Prod.fst) ∧
    ((envLinePairs env).map Prod.fst).Nodup ∧
    (∀ k v, (k, v) ∈ envLinePairs env → (k, some v) ∈ env) ∧
    envObjToString env =
      List.intercalate ('\n' :: []) ((envLinePairs env).map renderLine) :=
  ⟨fun _ _ h => mem_envLinePairs_of_mem hnd h,
   fun _ h => nonstring_not_in_envLinePairs hnd h,
   envLinePairs_keys_nodup hnd,
   fun _ _ h => mem_of_mem_envLinePairs h,
   rfl⟩

/-- Witness for the amended C7: in the concrete object
`GEMINI_API_KEY -> "k"`, `X -> (non-string)`, the non-string key `X`
produces no line. -/
theorem envObjToString_lines_amended_witness :
    "X".toList ∉
      (envLinePairs [("GEMINI_API_KEY".toList, some "k".toList),
        ("X".toList, (none : EnvVal))]).map Prod.fst :=
  (envObjToString_lines_amended
      [("GEMINI_API_KEY".toList, some "k".toList), ("X".toList, none)]
      (by decide)).2.1 "X".toList (by decide)

/-! ### Supporting lemmas for the drag-sort batch -/

theorem perm_insertIdx {α : Type} (x : α) (n : Nat) (l : List α)
    (h : n ≤ l.length) : (l.insertIdx n x).Perm (x :: l) := by
  induction n generalizing l with
  | zero => rw [List.insertIdx_zero]
  | succ n ih =>
    cases l with
    | nil => simp at h
    | cons c t =>
      rw [List.insertIdx_succ_cons]
      exact ((ih t (Nat.le_of_succ_le_succ h)).cons c).trans (List.Perm.swap x c t)

theorem perm_cons_eraseIdx {α : Type} (l : List α) (i : Nat) (hi : i < l.length) :
    (l[i] :: l.eraseIdx i).Perm l := by
  rw [List.eraseIdx_eq_take_drop_succ]
  have hmid : List.take i l ++ l[i] :: List.drop (i + 1) l = l := by
    rw [List.get_drop_eq_drop l i hi]
    exact List.take_append_drop i l
  have h1 : (l[i] :: (List.take i l ++ List.drop (i + 1) l)).Perm
      (List.take i l ++ l[i] :: List.drop (i + 1) l) := List.perm_middle.symm
  rw [hmid] at h1
  exact h1

theorem arrayMove_perm {α : Type} (l : List α) (i j : Nat)
    (hi : i < l.length) (hj : j < l.length) : (arrayMove l i j).Perm l := by
  unfold arrayMove
  rw [(List.getElem?_eq_some_getElem_iff l i hi).mpr trivial]
  have hlen1 : (l.eraseIdx i).length + 1 = l.length := List.length_eraseIdx_add_one hi
  have hlen : j ≤ (l.eraseIdx i).length := by omega
  exact (perm_insertIdx l[i] j _ hlen).trans (perm_cons_eraseIdx l i hi)

theorem getElem_id_ne (sorted : List DragProvider)
    (hnd : (sorted.map DragProvider.id).Nodup) (i j : Nat)
    (hi : i < sorted.length) (hj : j < sorted.length) (hij : i ≠ j) :
    sorted[i].id ≠ sorted[j].id := by
  intro heq
  apply hij
  have hi' : i < (sorted.map DragProvider.id).length := by simpa using hi
  have hj' : j < (sorted.map DragProvider.id).length := by simpa using hj
  have hmap : (sorted.map DragProvider.id)[i] = (sorted.map DragProvider.id)[j] := by
    simpa using heq
  exact (List.Nodup.getElem_inj_iff hnd).mp hmap

theorem findIndexById_getElem (sorted : List DragProvider)
    (hnd : (sorted.map DragProvider.id).Nodup) (i : Nat) (hi : i < sorted.length) :
    findIndexById sorted (sorted[i].id) = some i := by
  apply List.findIdx?_eq_some_iff_getElem.mpr
  refine ⟨hi, by simp, ?_⟩
  intro j hji
  have hj : j < sorted.length := Nat.lt_trans hji hi
  simp only [decide_eq_true_eq]
  intro heq
  exact absurd heq (getElem_id_ne sorted hnd j i hj hi (Nat.ne_of_lt hji))

/-- Claim C4, counterexample to the claim as stated: dragging the
provider with raw `isPinned = undefined` onto the provider with raw
`isPinned = false` produces a batch whose entry for the dragged
provider includes an `isPinned` change, although the source and target
positions have the same pinned status (both unpinned): the code
compares the raw optional values with `!==`, so `undefined` versus
`false` counts as a difference. -/
theorem handleDragEnd_cex :
    pinnedStatus ⟨"a", none⟩ = pinnedStatus ⟨"b", some false⟩ ∧
    handleDragEnd [⟨"a", none⟩, ⟨"b", some false⟩] "a" (some "b") =
      some [⟨"b", 0, none⟩, ⟨"a", 1, some (some false)⟩] ∧
    (⟨"a", 1, some (some false)⟩ : SortUpdate).isPinned ≠ none := by
  refine ⟨rfl, by decide, by decide⟩

/-- Claim C4 (amended): a drag of the provider at display position `i`
onto position `j` (with `i ≠ j`, both valid, distinct ids) issues
exactly one bulk update; the batch lists every displayed provider
exactly once with `sortIndex` equal to its 0-based position in the
post-move order (a contiguous renumbering `0..n-1`); an `isPinned`
change is included only for the dragged provider, and exactly when the
raw optional `isPinned` values of the dragged and target providers
differ (so `undefined` versus `false` also counts as a difference), the
included value being the target's raw value. -/
theorem handleDragEnd_amended (sorted : List DragProvider) (i j : Nat)
    (hnd : (sorted.map DragProvider.id).Nodup)
    (hi : i < sorted.length) (hj : j < sorted.length) (hij : i ≠ j) :
    handleDragEnd sorted (sorted[i].id) (some (sorted[j].id)) =
      some (dragUpdates sorted i j) ∧
    ((dragUpdates sorted i j).map SortUpdate.id).Perm
      (sorted.map DragProvider.id) ∧
    (dragUpdates sorted i j).length = sorted.length ∧
    (∀ n (hn : n < (dragUpdates sorted i j).length),
      ((dragUpdates sorted i j).get ⟨n, hn⟩).sortIndex = n) ∧
    (∀ u ∈ dragUpdates sorted i j, u.isPinned ≠ none →
      u.id = sorted[i].id ∧ sorted[i].isPinned ≠ sorted[j].isPinned ∧
      u.isPinned = some (sorted[j].isPinned)) := by
  have hgi : sorted[i]? = some sorted[i] :=
    (List.getElem?_eq_some_getElem_iff sorted i hi).mpr trivial
  have hgj : sorted[j]? = some sorted[j] :=
    (List.getElem?_eq_some_getElem_iff sorted j hj).mpr trivial
  have hidne : sorted[i].id ≠ sorted[j].id := getElem_id_ne sorted hnd i j hi hj hij
  have hfi : findIndexById sorted (sorted[i].id) = some i :=
    findIndexById_getElem sorted hnd i hi
  have hfj : findIndexById sorted (sorted[j].id) = some j :=
    findIndexById_getElem sorted hnd j hj
  have hDU : dragUpdates sorted i j = (arrayMove sorted i j).enum.map (fun np =>
      { id := np.2.id, sortIndex := np.1,
        isPinned :=
          if np.2.id = sorted[i].id ∧ sorted[i].isPinned ≠ sorted[j].isPinned then
            some (sorted[j].isPinned)
          else none }) := by
    unfold dragUpdates
    rw [hgi, hgj]
  have hperm : (arrayMove sorted i j).Perm sorted := arrayMove_perm sorted i j hi hj
  refine ⟨?_, ?_, ?_, ?_, ?_⟩
  · simp only [handleDragEnd, if_neg hidne, hfi, hfj, hgi, hgj, hDU]
  · rw [hDU, List.map_map]
    rw [show (SortUpdate.id ∘ (fun np : Nat × DragProvider =>
        ({ id := np.2.id, sortIndex := np.1,
           isPinned :=
             if np.2.id = sorted[i].id ∧ sorted[i].isPinned ≠ sorted[j].isPinned then
               some (sorted[j].isPinned)
             else none } : SortUpdate))) = DragProvider.id ∘ Prod.snd from rfl]
    rw [← List.map_map, List.enum_map_snd]
    exact hperm.map DragProvider.id
  · rw [hDU]
    simp only [List.length_map, List.enum_length]
    exact hperm.length_eq
  · intro n hn
    have hn' : n < (arrayMove sorted i j).length := by
      rw [hDU] at hn
      simpa using hn
    have hn'' : n < (arrayMove sorted i j).enum.length := by
      simpa [List.enum_length] using hn'
    rw [List.get_of_eq hDU ⟨n, hn⟩]
    simp [List.getElem_enum]
  · intro u hu hne
    rw [hDU] at hu
    obtain ⟨np, _, hfu⟩ := List.mem_map.mp hu
    by_cases hc : np.2.id = sorted[i].id ∧ sorted[i].isPinned ≠ sorted[j].isPinned
    · rw [← hfu]
      simp only [if_pos hc]
      exact ⟨hc.1, hc.2, trivial⟩
    · exfalso
      apply hne
      rw [← hfu]
      simp [if_neg hc]

/-- Witness for the amended C4: dragging the pinned provider `"a"` onto
the unpinned provider `"b"` in a concrete two-element list issues the
expected single batch. -/
theorem handleDragEnd_amended_witness :
    handleDragEnd [⟨"a", some true⟩, ⟨"b", none⟩]
        (([⟨"a", some true⟩, ⟨"b", none⟩] : List DragProvider)[0].id)
        (some (([⟨"a", some true⟩, ⟨"b", none⟩] : List DragProvider)[1].id)) =
      some (dragUpdates [⟨"a", some true⟩, ⟨"b", none⟩] 0 1) :=
  (handleDragEnd_amended [⟨"a", some true⟩, ⟨"b", none⟩] 0 1
    (by decide) (by decide) (by decide) (by decide)).1

/-- Claim C1, counterexample to the claim as stated: for the supported
tool `qwen` the validation chain of `handleSubmit` has no branch at
all, so a non-official provider with an empty endpoint and an empty API
key passes validation and `onSubmit` is invoked. -/
theorem handleSubmitGate_cex :
    some ProviderCategory.custom ≠ some ProviderCategory.official ∧
    trimList (endpointFor .qwen [] [] []) = [] ∧
    trimList (credentialFor .qwen [] [] []) = [] ∧
    handleSubmitGate .qwen false false "n".toList [] [] [] [] [] []
      (some .custom) = .submitted := by
  refine ⟨by decide, rfl, rfl, by decide⟩

/-- Claim C1 (amended): for the tools `claude`, `codex`, `gemini` and
`grok` (but not `qwen`, which has no validation branch), submitting the
provider form for a provider whose category is not `official` with an
empty (after trimming) endpoint or an empty (after trimming) API key is
rejected: `onSubmit` is never invoked. -/
theorem handleSubmitGate_amended (appId : AppId) (hq : appId ≠ .qwen)
    (templateHasEntries templateInvalid : Bool)
    (name baseUrl apiKey codexBaseUrl codexApiKey geminiBaseUrl
      geminiApiKey : List Char)
    (category : Option ProviderCategory)
    (hcat : category ≠ some ProviderCategory.official)
    (hempty : trimList (endpointFor appId baseUrl codexBaseUrl geminiBaseUrl) = [] ∨
      trimList (credentialFor appId apiKey codexApiKey geminiApiKey) = []) :
    handleSubmitGate appId templateHasEntries templateInvalid name baseUrl
      apiKey codexBaseUrl codexApiKey geminiBaseUrl geminiApiKey category ≠
      .submitted := by
  cases appId with
  | qwen => exact absurd rfl hq
  | claude =>
    simp only [handleSubmitGate]
    split_ifs <;> simp_all [endpointFor, credentialFor]
  | codex =>
    simp only [handleSubmitGate]
    split_ifs <;> simp_all [endpointFor, credentialFor]
  | gemini =>
    simp only [handleSubmitGate]
    split_ifs <;> simp_all [endpointFor, credentialFor]
  | grok =>
    simp only [handleSubmitGate]
    split_ifs <;> simp_all [endpointFor, credentialFor]

/-- Witness for the amended C1: a custom claude provider named `n` with
an empty endpoint and a non-empty key is rejected. -/
theorem handleSubmitGate_amended_witness :
    handleSubmitGate .claude false false "n".toList [] "x".toList [] [] [] []
      (some .custom) ≠ .submitted :=
  handleSubmitGate_amended .claude (by decide) false false "n".toList []
    "x".toList [] [] [] [] (some .custom) (by decide) (Or.inl rfl)

/-! ### Supporting lemmas for the current-provider pointer invariant -/

theorem filter_by_id_le_one (l : List Provider) (x : String)
    (hnd : (l.map Provider.id).Nodup) :
    (l.filter (fun p => x = p.id)).length ≤ 1 := by
  induction l with
  | nil => simp
  | cons q rest ih =>
    have hnd' : (rest.map Provider.id).Nodup := by
      simp only [List.map_cons, List.nodup_cons] at hnd
      exact hnd.2
    have hqid : q.id ∉ rest.map Provider.id := by
      simp only [List.map_cons, List.nodup_cons] at hnd
      exact hnd.1
    by_cases hq : x = q.id
    · rw [List.filter_cons_of_pos (by simp [hq])]
      have hrest : rest.filter (fun p => x = p.id) = [] := by
        apply List.filter_eq_nil_iff.mpr
        intro p hp
        simp only [decide_eq_true_eq]
        intro hxp
        exact hqid (List.mem_map.mpr ⟨p, hp, by rw [← hxp, ← hq]⟩)
      rw [hrest]
      simp
    · rw [List.filter_cons_of_neg (by simp [hq])]
      exact ih hnd'

theorem currentProviders_le_one (s : StoreState) (app : AppId)
    (hnd : (s.providers.map Provider.id).Nodup) :
    (currentProviders s app).length ≤ 1 := by
  unfold currentProviders
  cases hcur : s.settings.currentFor app with
  | none =>
    simp [hcur]
  | some x =>
    have hx : (s.providers.filter (fun p => some x = some p.id)) =
        s.providers.filter (fun p => x = p.id) := by
      apply List.filter_congr
      intro p _
      simp
    rw [hx]
    exact filter_by_id_le_one s.providers x hnd

theorem applyOp_nodup (s : StoreState) (op : StoreOp)
    (hnd : (s.providers.map Provider.id).Nodup) :
    ((applyOp s op).providers.map Provider.id).Nodup := by
  cases op with
  | switchTo app pid =>
    simp only [applyOp]
    split_ifs <;> exact hnd
  | addProvider p =>
    simp only [applyOp]
    split_ifs with h
    · exact hnd
    · show ((s.providers ++ [p]).map Provider.id).Nodup
      rw [List.map_append]
      refine List.Nodup.append hnd (by simp) ?_
      intro a ha hb
      simp only [List.map_cons, List.map_nil, List.mem_singleton] at hb
      subst hb
      obtain ⟨q, hq, hqa⟩ := List.mem_map.mp ha
      exact h (List.any_eq_true.mpr ⟨q, hq, by simp [hqa]⟩)
  | updateProvider p =>
    simp only [applyOp]
    show ((s.providers.map fun q => if q.id = p.id then p else q).map
      Provider.id).Nodup
    rw [List.map_map]
    have hcongr : s.providers.map (Provider.id ∘ fun q => if q.id = p.id then p else q) =
        s.providers.map Provider.id := by
      apply List.map_congr_left
      intro q _
      by_cases h : q.id = p.id
      · simp [Function.comp, h]
      · simp [Function.comp, h]
    rw [hcongr]
    exact hnd
  | deleteProvider pid =>
    simp only [applyOp]
    exact ((List.filter_sublist _).map Provider.id).nodup hnd

theorem runOps_nodup (init : StoreState) (ops : List StoreOp)
    (hinit : (init.providers.map Provider.id).Nodup) :
    ((runOps init ops).providers.map Provider.id).Nodup := by
  induction ops generalizing init with
  | nil => exact hinit
  | cons op rest ih => exact ih (applyOp init op) (applyOp_nodup init op hinit)

/-- Claim C2: the current provider of each tool is tracked by a single
optional string field per tool in the device settings (`Settings` in
`src/types.ts`), not by a flag on the provider records; consequently,
starting from any store whose provider ids are distinct, after any
sequence of switch/add/update/delete operations at most one provider is
recorded as current for any tool (and ids stay distinct). -/
theorem currentPointer_unique (init : StoreState) (ops : List StoreOp)
    (app : AppId) (hinit : (init.providers.map Provider.id).Nodup) :
    ((runOps init ops).providers.map Provider.id).Nodup ∧
    (currentProviders (runOps init ops) app).length ≤ 1 := by
  have hnd := runOps_nodup init ops hinit
  exact ⟨hnd, currentProviders_le_one _ app hnd⟩

/-- Witness for C2: a concrete two-provider store after a switch and a
delete has at most one current claude provider. -/
theorem currentPointer_unique_witness :
    (currentProviders
      (runOps ⟨[sampleProvider "a", sampleProvider "b"], sampleSettings⟩
        [.switchTo .claude "a", .deleteProvider "a"]) .claude).length ≤ 1 :=
  (currentPointer_unique
    ⟨[sampleProvider "a", sampleProvider "b"], sampleSettings⟩
    [.switchTo .claude "a", .deleteProvider "a"] .claude (by decide)).2

/-- Claim C6: during a switch the projected document is written to a
temporary file and then atomically renamed over the live file; at every
crash point the live file holds either the old complete document or the
new complete document — before the rename it is exactly the old
content, after the rename exactly the new document — never a partial
write. -/
theorem atomicWrite_spec (s0 : FsState) (doc partialContent : String) (k : Nat) :
    ((crashedState s0 doc partialContent k).live = s0.live ∨
      (crashedState s0 doc partialContent k).live = some doc) ∧
    (k < 3 → (crashedState s0 doc partialContent k).live = s0.live) ∧
    (3 ≤ k → (crashedState s0 doc partialContent k).live = some doc) := by
  unfold crashedState writeTempPartial writeTempComplete renameTempOverLive
  split_ifs with h0 h1 h2
  · exact ⟨Or.inl rfl, fun _ => rfl, fun h3 => by omega⟩
  · exact ⟨Or.inl rfl, fun _ => rfl, fun h3 => by omega⟩
  · exact ⟨Or.inl rfl, fun _ => rfl, fun h3 => by omega⟩
  · exact ⟨Or.inr rfl, fun hlt => by omega, fun _ => rfl⟩

/-- Witness for C6: a crash after the partial temp write (`k = 1`)
leaves the concrete live file `"old"` intact, and completion (`k = 3`)
installs `"new"`. -/
theorem atomicWrite_spec_witness :
    (crashedState ⟨some "old", none⟩ "new" "par" 1).live = some "old" ∧
    (crashedState ⟨some "old", none⟩ "new" "par" 3).live = some "new" :=
  ⟨(atomicWrite_spec ⟨some "old", none⟩ "new" "par" 1).2.1 (by omega),
   (atomicWrite_spec ⟨some "old", none⟩ "new" "par" 3).2.2 (by omega)⟩

/-- Claim C5, counterexample to the claim as stated: a failure of the
store's provider-list read inside `useProvidersQuery` is not surfaced
to the caller — the query resolves successfully with an empty map and
an empty current id, and the error appears only in the console log.
The claim's sole admitted exception is tray-menu refresh, so this
refutes it. -/
theorem providersQueryFn_swallows_cex :
    providersQueryFn (List String) id [] List.isEmpty
      (.error "boom") (.ok "") (.ok false) (.ok []) (.ok "") =
      (.ok ([], ""), ["获取供应商列表失败: boom"]) := rfl

/-- Claim C5 (amended): store errors in the update flow propagate to
the caller and in the reorder flow are surfaced via an error toast,
with tray-menu refresh failures only logged in both; but the
providers-list and current-pointer reads of `useProvidersQuery` are a
further exception: their failures are caught, logged to the console,
and the query resolves with empty defaults instead of surfacing the
error. -/
theorem errorSurfacing_amended :
    (∀ (e : String) (tray : Except String Unit),
      updateProviderFlow (.error e) tray = (.error e, [])) ∧
    (∀ te : String, updateProviderFlow (.ok ()) (.error te) = (.ok (), [te])) ∧
    (∀ (e : String) (inv tray : Except String Unit),
      handleDragEndEffects (.error e) inv tray =
        ⟨some "provider.sortUpdateFailed", false, [e]⟩) ∧
    (∀ te : String, handleDragEndEffects (.ok ()) (.ok ()) (.error te) =
      ⟨none, true, [te]⟩) ∧
    (∀ (PM : Type) (sortFn : PM → PM) (emptyPM : PM) (isEmpty : PM → Bool)
        (g1 : Except String PM) (c1 : Except String String)
        (imp : Except String Bool) (g2 : Except String PM)
        (c2 : Except String String),
      (providersQueryFn PM sortFn emptyPM isEmpty g1 c1 imp g2 c2).1.isOk = true ∧
      (∀ e : String, g1 = .error e →
        ("获取供应商列表失败: " ++ e) ∈
          (providersQueryFn PM sortFn emptyPM isEmpty g1 c1 imp g2 c2).2)) := by
  refine ⟨fun e tray => rfl, fun te => rfl, fun e inv tray => rfl,
    fun te => rfl, ?_⟩
  intro PM sortFn emptyPM isEmpty g1 c1 imp g2 c2
  constructor
  · rfl
  · intro e he
    subst he
    simp [providersQueryFn]

/-- Witness for the amended C5: with a concrete failing provider-list
read, the logged message is in the query's console output. -/
theorem errorSurfacing_amended_witness :
    ("获取供应商列表失败: boom") ∈
      (providersQueryFn (List String) id [] List.isEmpty
        (.error "boom") (.ok "") (.ok false) (.ok []) (.ok "")).2 :=
  (errorSurfacing_amended.2.2.2.2 (List String) id [] List.isEmpty
    (.error "boom") (.ok "") (.ok false) (.ok []) (.ok "")).2 "boom" rfl

/-! ### Supporting lemmas for the useBaseUrlState equivalence -/

theorem claudeNextV4_eq (p : String → Option Json) (sc cur : String) :
    claudeNextV4 p sc cur = claudeNextV3 p sc cur := rfl

theorem codexNextV4_eq (ex : String → Option String) (cc cur : String) :
    codexNextV4 ex cc cur = codexNextV3 ex cc cur := rfl

theorem geminiNextV4_eq (p : String → Option Json) (sc cur : String) :
    geminiNextV4 p sc cur = geminiNextV3 p sc cur := rfl

theorem qwenNextV4_eq (p : String → Option Json) (sc cur : String) :
    qwenNextV4 p sc cur = qwenNextV3 p sc cur := rfl

theorem grokEffectV3_skip (p : String → Option Json) (a : AppId4)
    (cat : Option ProviderCategory) (upd : Bool) (sc : String)
    (st : BaseUrlState3) :
    grokEffectV3 p a.toAppId cat upd sc st = st := by
  cases a <;> rfl

theorem claudeEffect_proj (p : String → Option Json) (a : AppId4)
    (cat : Option ProviderCategory) (upd : Bool) (sc : String)
    (st : BaseUrlState3) :
    projState (claudeEffectV3 p a.toAppId cat upd sc st) =
      claudeEffectV4 p a cat upd sc (projState st) := by
  cases a with
  | claude =>
    simp only [claudeEffectV3, claudeEffectV4, AppId4.toAppId]
    by_cases hcat : cat = some ProviderCategory.official
    · simp [hcat]
    · cases upd with
      | true => simp [hcat]
      | false =>
        cases hc : claudeNextV3 p sc st.baseUrl with
        | none => simp [hcat, claudeNextV4_eq, projState, hc]
        | some u => simp [hcat, claudeNextV4_eq, projState, hc]
  | codex => rfl
  | gemini => rfl
  | qwen => rfl

theorem codexEffect_proj (ex : String → Option String) (a : AppId4)
    (cat : Option ProviderCategory) (upd : Bool) (cc : String)
    (st : BaseUrlState3) :
    projState (codexEffectV3 ex a.toAppId cat upd cc st) =
      codexEffectV4 ex a cat upd cc (projState st) := by
  cases a with
  | codex =>
    simp only [codexEffectV3, codexEffectV4, AppId4.toAppId]
    by_cases hcat : cat = some ProviderCategory.official
    · simp [hcat]
    · cases upd with
      | true => simp [hcat]
      | false =>
        cases hc : codexNextV3 ex cc st.codexBaseUrl with
        | none => simp [hcat, codexNextV4_eq, projState, hc]
        | some u => simp [hcat, codexNextV4_eq, projState, hc]
  | claude => rfl
  | gemini => rfl
  | qwen => rfl

theorem geminiEffect_proj (p : String → Option Json) (a : AppId4)
    (cat : Option ProviderCategory) (upd : Bool) (sc : String)
    (st : BaseUrlState3) :
    projState (geminiEffectV3 p a.toAppId cat upd sc st) =
      geminiEffectV4 p a cat upd sc (projState st) := by
  cases a with
  | gemini =>
    simp only [geminiEffectV3, geminiEffectV4, AppId4.toAppId]
    by_cases hcat : cat = some ProviderCategory.official
    · simp [hcat]
    · cases upd with
      | true => simp [hcat]
      | false =>
        cases hc : geminiNextV3 p sc st.geminiBaseUrl with
        | none => simp [hcat, geminiNextV4_eq, projState, hc]
        | some u => simp [hcat, geminiNextV4_eq, projState, hc]
  | claude => rfl
  | codex => rfl
  | qwen => rfl

theorem qwenEffect_proj (p : String → Option Json) (a : AppId4)
    (cat : Option ProviderCategory) (upd : Bool) (sc : String)
    (st : BaseUrlState3) :
    projState (qwenEffectV3 p a.toAppId cat upd sc st) =
      qwenEffectV4 p a cat upd sc (projState st) := by
  cases a with
  | qwen =>
    simp only [qwenEffectV3, qwenEffectV4, AppId4.toAppId]
    by_cases hcat : cat = some ProviderCategory.official
    · simp [hcat]
    · cases upd with
      | true => simp [hcat]
      | false =>
        cases hc : qwenNextV3 p sc st.qwenBaseUrl with
        | none => simp [hcat, qwenNextV4_eq, projState, hc]
        | some u => simp [hcat, qwenNextV4_eq, projState, hc]
  | claude => rfl
  | codex => rfl
  | gemini => rfl

theorem syncEffects_proj (p : String → Option Json)
    (ex : String → Option String) (a : AppId4)
    (cat : Option ProviderCategory) (upd : Bool) (sc cc : String)
    (st : BaseUrlState3) :
    projState (syncEffectsV3 p ex a.toAppId cat upd sc cc st) =
      syncEffectsV4 p ex a cat upd sc cc (projState st) := by
  unfold syncEffectsV3 syncEffectsV4
  rw [grokEffectV3_skip]
  rw [qwenEffect_proj, geminiEffect_proj, codexEffect_proj, claudeEffect_proj]

/-- Claim C8: the two versions of `useBaseUrlState` (part_003 with grok
support, part_004 without) are behaviourally equivalent for every
appType in claude/codex/gemini/qwen: the four shared base-URL change
handlers produce the same updated configuration strings on all inputs,
and the sync-from-config extraction effects produce the same values of
the shared state cells. -/
theorem useBaseUrlState_equiv :
    (∀ (parseJson : String → Option Json) (stringifyJson : Json → String)
        (settingsConfig url : String),
      handleClaudeBaseUrlChangeV3 parseJson stringifyJson settingsConfig url =
        handleClaudeBaseUrlChangeV4 parseJson stringifyJson settingsConfig url) ∧
    (∀ (setCodexBaseUrlFn : String → String → String) (codexConfig : String)
        (hasCb : Bool) (url : String),
      handleCodexBaseUrlChangeV3 setCodexBaseUrlFn codexConfig hasCb url =
        handleCodexBaseUrlChangeV4 setCodexBaseUrlFn codexConfig hasCb url) ∧
    (∀ (parseJson : String → Option Json) (stringifyJson : Json → String)
        (settingsConfig url : String),
      handleGeminiBaseUrlChangeV3 parseJson stringifyJson settingsConfig url =
        handleGeminiBaseUrlChangeV4 parseJson stringifyJson settingsConfig url) ∧
    (∀ (parseJson : String → Option Json) (stringifyJson : Json → String)
        (settingsConfig url : String),
      handleQwenBaseUrlChangeV3 parseJson stringifyJson settingsConfig url =
        handleQwenBaseUrlChangeV4 parseJson stringifyJson settingsConfig url) ∧
    (∀ (parseJson : String → Option Json) (extractFn : String → Option String)
        (a : AppId4) (category : Option ProviderCategory) (isUpdating : Bool)
        (settingsConfig codexConfig : String) (st : BaseUrlState3),
      projState (syncEffectsV3 parseJson extractFn a.toAppId category
          isUpdating settingsConfig codexConfig st) =
        syncEffectsV4 parseJson extractFn a category isUpdating
          settingsConfig codexConfig (projState st)) :=
  ⟨fun _ _ _ _ => rfl, fun _ _ _ _ => rfl, fun _ _ _ _ => rfl,
   fun _ _ _ _ => rfl,
   fun p ex a cat upd sc cc st => syncEffects_proj p ex a cat upd sc cc st⟩

end CCSwitch
